import Mathlib

/-!
Verification development for the mentor–mentee matching engine
(`src/matching/mentor_mentee_matcher.py`).

The Python code is shallowly embedded: JSON-like Python values become the
inductive type `PyVal`, profiles become the structure `Profile`, floats that
can be NaN or infinite become `FVal`, and every numeric computation is carried
out over `ℚ`.  The sklearn TF-IDF/cosine stage is an external collaborator of
the repository and enters the model as an explicit matrix parameter; the rest
of the pipeline (text extraction, location normalisation and similarity,
score combination, eligibility filtering, matching, result assembly) is
translated function by function from the source.
-/

set_option maxRecDepth 100000

/-- A Python value as it can appear in the matcher's JSON-derived input:
`None`, booleans, integers, strings, lists and string-keyed objects. -/
inductive PyVal where
  | none
  | bool (b : Bool)
  | int (n : Int)
  | str (s : String)
  | list (xs : List PyVal)
  | dict (kvs : List (String × PyVal))

/-- Python truthiness (`bool(x)`): `None`, `False`, `0`, `""` and empty
containers are falsy, everything else is truthy. -/
def pyTruthy : PyVal → Bool
  | .none => false
  | .bool b => b
  | .int n => n ≠ 0
  | .str s => s ≠ ""
  | .list xs => !xs.isEmpty
  | .dict kvs => !kvs.isEmpty

/-- Python numeric view used by `==`: `True`/`False` compare equal to `1`/`0`. -/
def pyNum : PyVal → Option Int
  | .bool b => some (if b then 1 else 0)
  | .int n => some n
  | _ => Option.none

mutual
/-- Python `==` on embedded values: `None` equals only `None`, booleans and
integers compare numerically (`True == 1`), strings compare as strings, lists
compare elementwise.  (Objects compare keywise in order; Python dictionaries
cannot be dictionary keys, so this case is never exercised by the matcher.) -/
def pyEq : PyVal → PyVal → Bool
  | .none, .none => true
  | .str a, .str b => a = b
  | .list xs, .list ys => pyEqL xs ys
  | .dict xs, .dict ys => pyEqKV xs ys
  | a, b =>
    match pyNum a, pyNum b with
    | some m, some n => m = n
    | _, _ => false
def pyEqL : List PyVal → List PyVal → Bool
  | [], [] => true
  | x :: xs, y :: ys => pyEq x y && pyEqL xs ys
  | _, _ => false
def pyEqKV : List (String × PyVal) → List (String × PyVal) → Bool
  | [], [] => true
  | (k, v) :: xs, (k2, v2) :: ys => k = k2 && pyEq v v2 && pyEqKV xs ys
  | _, _ => false
end

mutual
theorem pyEq_refl : ∀ v : PyVal, pyEq v v = true
  | .none => rfl
  | .bool b => by simp [pyEq, pyNum]
  | .int n => by simp [pyEq, pyNum]
  | .str s => by simp [pyEq]
  | .list xs => by simp [pyEq, pyEqL_refl xs]
  | .dict kvs => by simp [pyEq, pyEqKV_refl kvs]
theorem pyEqL_refl : ∀ xs : List PyVal, pyEqL xs xs = true
  | [] => rfl
  | x :: xs => by simp [pyEqL, pyEq_refl x, pyEqL_refl xs]
theorem pyEqKV_refl : ∀ kvs : List (String × PyVal), pyEqKV kvs kvs = true
  | [] => rfl
  | (k, v) :: kvs => by simp [pyEqKV, pyEq_refl v, pyEqKV_refl kvs]
end

/-- The single-quote character, used by Python `repr` of strings. -/
def pyQuote : String := String.singleton (Char.ofNat 39)

mutual
/-- Python `str(x)` for embedded values. -/
def pyStr : PyVal → String
  | .none => "None"
  | .bool true => "True"
  | .bool false => "False"
  | .int n => toString n
  | .str s => s
  | .list xs => "[" ++ pyReprL xs ++ "]"
  | .dict kvs => "\x7b" ++ pyReprKV kvs ++ "\x7d"
/-- Python `repr(x)` as used when stringifying containers. -/
def pyRepr : PyVal → String
  | .none => "None"
  | .bool true => "True"
  | .bool false => "False"
  | .int n => toString n
  | .str s => pyQuote ++ s ++ pyQuote
  | .list xs => "[" ++ pyReprL xs ++ "]"
  | .dict kvs => "\x7b" ++ pyReprKV kvs ++ "\x7d"
def pyReprL : List PyVal → String
  | [] => ""
  | [x] => pyRepr x
  | x :: xs => pyRepr x ++ ", " ++ pyReprL xs
def pyReprKV : List (String × PyVal) → String
  | [] => ""
  | [(k, v)] => pyQuote ++ k ++ pyQuote ++ ": " ++ pyRepr v
  | (k, v) :: kvs => pyQuote ++ k ++ pyQuote ++ ": " ++ pyRepr v ++ ", " ++ pyReprKV kvs
end

/-- The tri-state truthiness test the filter applies to mentee flags:
`x is True or (isinstance(x, str) and x.lower() == 'true') or x == 1`. -/
def triTruthy : PyVal → Bool
  | .bool b => b
  | .str s => s.toLower = "true"
  | .int n => n = 1
  | _ => false

/-- Python `x or y` (returns `x` when truthy, otherwise `y`). -/
def pyOr (x y : PyVal) : PyVal := if pyTruthy x then x else y

/-- One profile record.  Each field holds `some v` when the corresponding key
is present in the JSON object (`v` may be `PyVal.none` for an explicit null)
and `Option.none` when the key is absent, matching `dict.get` semantics.
`mentor_capacity` is an integer or null/absent, per the data contract. -/
structure Profile where
  id : Option PyVal := Option.none
  student_id : Option PyVal := Option.none
  name : Option PyVal := Option.none
  email : Option PyVal := Option.none
  location : Option PyVal := Option.none
  willing_to_be_mentor : Option PyVal := Option.none
  mentor_capacity : Option Int := Option.none
  mentorship_interest : Option PyVal := Option.none
  mentor_paired : Option PyVal := Option.none
  mentor_preference : Option PyVal := Option.none
  skills : Option PyVal := Option.none
  projects : Option PyVal := Option.none
  aspirations : Option PyVal := Option.none
  parsed_resume : Option PyVal := Option.none
  experiences : Option PyVal := Option.none
  achievements : Option PyVal := Option.none
  major : Option PyVal := Option.none
  relevant_coursework : Option PyVal := Option.none

instance : Inhabited Profile := ⟨{}⟩

/-- Read `profile.get(key)`: absent keys read as Python `None`. -/
def pyGet (o : Option PyVal) : PyVal := o.getD PyVal.none

/-- Read `mentor.get('id')`. -/
def pyId (p : Profile) : PyVal := pyGet p.id

/-- Mentor filter of `perform_matching` (and the re-check in
`match_mentees_to_mentors`):
`mentor.get('willing_to_be_mentor') and (mentor.get('mentor_capacity') or 0) > 0`. -/
def mentorEligible (p : Profile) : Bool :=
  pyTruthy (pyGet p.willing_to_be_mentor) && 0 < p.mentor_capacity.getD 0

/-- Mentee filter of `perform_matching`: `mentorship_interest` tri-state
truthy and `mentor_paired` not tri-state truthy. -/
def menteeEligible (p : Profile) : Bool :=
  triTruthy (pyGet p.mentorship_interest) && !triTruthy (pyGet p.mentor_paired)

/-- Word character for the regex `\b` boundaries of `normalize_location`
(`re` word characters restricted to the ASCII range). -/
def isWordChar (c : Char) : Bool := c.isAlphanum || c = '_'

/-- Does the second list start with the first one? -/
def matchesAt : List Char → List Char → Bool
  | [], _ => true
  | _ :: _, [] => false
  | a :: as, b :: bs => a = b && matchesAt as bs

/-- One pass of `re.sub(r'\b' + abbr + r'\b', full, text)`: scan the text left
to right, splice in the replacement at every non-overlapping whole-word
occurrence of `abbr`, and keep scanning the original text after the match.
`prevIsWord` records whether the character before the scan position is a word
character (for the left `\b`); the fuel argument only forces termination and
is always supplied large enough to finish the scan. -/
def replaceWordAux (abbr repl : List Char) : Nat → Bool → List Char → List Char
  | 0, _, s => s
  | _ + 1, _, [] => []
  | fuel + 1, prevIsWord, c :: cs =>
    if !prevIsWord && matchesAt abbr (c :: cs)
        && (match (c :: cs).drop abbr.length with
            | [] => true
            | d :: _ => !isWordChar d) then
      repl ++ replaceWordAux abbr repl fuel
        (match abbr.getLast? with
         | some a => isWordChar a
         | Option.none => prevIsWord)
        ((c :: cs).drop abbr.length)
    else
      c :: replaceWordAux abbr repl fuel (isWordChar c) cs

/-- Whole-word replacement of `abbr` by `repl` throughout `s`. -/
def replaceWord (abbr repl : String) (s : List Char) : List Char :=
  replaceWordAux abbr.toList repl.toList (s.length + 1) false s

/-- The `abbreviations` table of `normalize_location`, in source order. -/
def abbreviations : List (String × String) :=
  [("ny", "new york"), ("ca", "california"), ("tx", "texas"), ("fl", "florida"),
   ("il", "illinois"), ("pa", "pennsylvania"), ("az", "arizona"), ("ma", "massachusetts"),
   ("tn", "tennessee"), ("in", "indiana"), ("mo", "missouri"), ("md", "maryland"),
   ("wi", "wisconsin"), ("co", "colorado"), ("mn", "minnesota"), ("sc", "south carolina"),
   ("al", "alabama"), ("la", "louisiana"), ("ky", "kentucky"), ("or", "oregon"),
   ("ok", "oklahoma"), ("ct", "connecticut"), ("ut", "utah"), ("ia", "iowa"),
   ("nv", "nevada"), ("ar", "arkansas"), ("ms", "mississippi"), ("ks", "kansas"),
   ("nm", "new mexico"), ("ne", "nebraska"), ("wv", "west virginia"), ("id", "idaho"),
   ("hi", "hawaii"), ("nh", "new hampshire"), ("me", "maine"), ("mt", "montana"),
   ("ri", "rhode island"), ("de", "delaware"), ("sd", "south dakota"), ("nd", "north dakota"),
   ("ak", "alaska"), ("dc", "washington dc"), ("vt", "vermont"), ("wy", "wyoming")]

mutual
/-- Embedding of `re.sub(r'\s+', ' ', ...)`: collapse every whitespace run to one space. -/
def collapseWS : List Char → List Char
  | [] => []
  | c :: cs => if c.isWhitespace then ' ' :: collapseRun cs else c :: collapseWS cs
/-- Inside a whitespace run whose single space has already been emitted. -/
def collapseRun : List Char → List Char
  | [] => []
  | c :: cs => if c.isWhitespace then collapseRun cs else c :: collapseWS cs
end

/-- Drop trailing whitespace. -/
def rstripWS : List Char → List Char
  | [] => []
  | c :: cs =>
    match rstripWS cs with
    | [] => if c.isWhitespace then [] else [c]
    | r@(_ :: _) => c :: r

/-- Python `str.strip()` on a character list. -/
def pyStripChars (l : List Char) : List Char :=
  rstripWS (l.dropWhile Char.isWhitespace)

/-- Python `str.strip()`. -/
def pyStripStr (s : String) : String := String.mk (pyStripChars s.toList)

/-- Body of `normalize_location` on the string case, already known non-empty:
lowercase and strip, delete `.`/`,`/`;`, expand the state abbreviations as
whole words in table order, collapse whitespace and strip. -/
def normalizeStr (s : String) : String :=
  let l := pyStripChars (s.toList.map Char.toLower)
  let l := l.filter (fun c => !(c = '.' || c = ',' || c = ';'))
  let l := abbreviations.foldl (fun acc p => replaceWord p.1 p.2 acc) l
  String.mk (pyStripChars (collapseWS l))

/-- Embedding of `normalize_location`: empty output for falsy or non-string input,
otherwise the normalisation pipeline above. -/
def normalize_location (v : PyVal) : String :=
  match v with
  | .str s => if s = "" then "" else normalizeStr s
  | _ => ""

/-- Python `str.split()` (split on whitespace runs, no empty words),
accumulating the current word in reverse. -/
def wordsAux (w : List Char) : List Char → List (List Char)
  | [] => if w.isEmpty then [] else [w.reverse]
  | c :: cs =>
    if c.isWhitespace then
      if w.isEmpty then wordsAux [] cs else w.reverse :: wordsAux [] cs
    else wordsAux (c :: w) cs

/-- Python `str.split()` as a list of strings. -/
def pySplitWS (s : String) : List String := (wordsAux [] s.toList).map String.mk

/-- The word set `set(s.split())`. -/
def wordSet (s : String) : Finset String := (pySplitWS s).toFinset

/-- The stop-word set removed from the common words in
`compute_location_similarity`. -/
def stopSet : Finset String :=
  {"the", "a", "an", "and", "or", "but", "in", "on", "at", "to", "for", "of", "with", "by"}

/-- The body of the double loop of `compute_location_similarity` for one
(mentee, mentor) location pair.  (The guard `if mentee_loc else ''` of the
source coincides with `normalize_location`, which already returns `''` on
every falsy input.) -/
def locPairScore (menteeLoc mentorLoc : PyVal) : ℚ :=
  let menteeNorm := normalize_location menteeLoc
  let mentorNorm := normalize_location mentorLoc
  let menteeWords := wordSet menteeNorm
  let mentorWords := wordSet mentorNorm
  if menteeNorm = "" ∧ mentorNorm = "" then 0
  else if menteeNorm = mentorNorm ∧ menteeNorm ≠ "" then 1
  else if menteeWords ≠ ∅ ∧ mentorWords ≠ ∅ then
    let common := (menteeWords ∩ mentorWords) \ stopSet
    if common ≠ ∅ then
      let un := menteeWords ∪ mentorWords
      if un ≠ ∅ then ((common.card : ℚ) / (un.card : ℚ)) * (1 / 2) else 0
    else 0
  else 0

/-- Embedding of `compute_location_similarity` as a function matrix indexed
(mentee row, mentor column). -/
def compute_location_similarity (mentorLocs menteeLocs : List PyVal) : Nat → Nat → ℚ :=
  fun i j => locPairScore (menteeLocs.getD i (.str "")) (mentorLocs.getD j (.str ""))

/-- A floating-point cosine-similarity entry as produced by the external
`cosine_similarity` call: NaN, an infinity, or a finite value. -/
inductive FVal where
  | nan
  | posinf
  | neginf
  | val (q : ℚ)

/-- Embedding of `np.nan_to_num(x, nan=0.0, posinf=1.0, neginf=0.0)` on one entry. -/
def nanToNum : FVal → ℚ
  | .nan => 0
  | .posinf => 1
  | .neginf => 0
  | .val q => q

/-- Embedding of `compute_similarity_scores`: scrub the cosine matrix with `nan_to_num`;
when both location lists are truthy (non-empty), normalise the two weights to
sum to 1 and blend the scrubbed profile similarity with the location
similarity, otherwise return the scrubbed profile similarity alone.  The
cosine matrix itself is computed by the external sklearn collaborator and is
therefore a parameter. -/
def compute_similarity_scores (profSim : Nat → Nat → FVal)
    (mentorLocs menteeLocs : List PyVal)
    (profile_weight location_weight : ℚ) : Nat → Nat → ℚ :=
  let scrubbed : Nat → Nat → ℚ := fun i j => nanToNum (profSim i j)
  if !mentorLocs.isEmpty && !menteeLocs.isEmpty then
    let locSim := compute_location_similarity mentorLocs menteeLocs
    let total_weight := profile_weight + location_weight
    if 0 < total_weight then
      fun i j =>
        (profile_weight / total_weight) * scrubbed i j +
        (location_weight / total_weight) * locSim i j
    else scrubbed
  else scrubbed

/-- The designated summary-like resume fields, in source order. -/
def resumeTextFields : List String :=
  ["summary", "objective", "description", "text", "content"]

/-- First value stored under a key in a string-keyed object. -/
def kvLookup (k : String) : List (String × PyVal) → Option PyVal
  | [] => Option.none
  | (k2, v) :: rest => if k2 = k then some v else kvLookup k rest

/-- Embedding of `extract_dict_values(obj, max_depth, current_depth)` with the remaining
depth `max_depth - current_depth` as first argument (the source checks
`current_depth >= max_depth` on entry and recurses with `current_depth + 1`):
collect the stripped non-empty string leaves of objects and arrays. -/
def extract_dict_values : Nat → PyVal → List String
  | 0, _ => []
  | n + 1, .dict kvs => ((kvs.map Prod.snd).map (extract_dict_values n)).flatten
  | n + 1, .list xs => (xs.map (extract_dict_values n)).flatten
  | _ + 1, .str s => if pyStripStr s ≠ "" then [pyStripStr s] else []
  | _ + 1, _ => []

/-- The `mentor_preference` fragment (mentee-flagged extraction only). -/
def prefParts (p : Profile) (is_student : Bool) : List String :=
  if is_student ∧ pyTruthy (pyGet p.mentor_preference) then
    let s := pyStripStr (pyStr (pyGet p.mentor_preference))
    if s ≠ "" then [s] else []
  else []

/-- Fragment of a truthy list field joined by spaces
(`skills`, `achievements`, `relevant_coursework`). -/
def listJoinParts (v : PyVal) : List String :=
  match v with
  | .list xs =>
    if pyTruthy (.list xs) then [String.intercalate " " (xs.map pyStr)] else []
  | _ => []

/-- Fragments of a truthy list of records (`projects`, `experiences`): each
object element contributes its string-typed values joined by spaces, each
string element contributes itself, other elements are skipped. -/
def projParts (v : PyVal) : List String :=
  match v with
  | .list xs =>
    if pyTruthy (.list xs) then
      xs.filterMap (fun proj =>
        match proj with
        | .dict kvs =>
          some (String.intercalate " "
            (kvs.filterMap (fun kv =>
              match kv.2 with
              | .str s => some s
              | _ => Option.none)))
        | .str s => some s
        | _ => Option.none)
    else []
  | _ => []

/-- Fragment of a truthy free-text field (`aspirations`, `major`). -/
def strParts (v : PyVal) : List String :=
  if pyTruthy v then [pyStr v] else []

/-- Fragments of `parsed_resume`: decode a string-encoded value with the
supplied JSON decoder (keeping the raw string when decoding fails), then, for
an object, stringify the designated summary-like fields that are present and
append every string leaf found by the depth-3 walk. -/
def resumeParts (jsonDec : String → Option PyVal) (v : PyVal) : List String :=
  if pyTruthy v then
    let pr :=
      match v with
      | .str s =>
        match jsonDec s with
        | some d => d
        | Option.none => v
      | _ => v
    match pr with
    | .dict kvs =>
      (resumeTextFields.filterMap (fun f => (kvLookup f kvs).map pyStr)) ++
        extract_dict_values 3 (.dict kvs)
    | _ => []
  else []

/-- Embedding of `extract_text_from_profile`: concatenate the fragments in source order
with single spaces, collapse whitespace runs, and strip.  `json.loads` is an
external stdlib collaborator and enters as the decoder parameter. -/
def extract_text_from_profile (jsonDec : String → Option PyVal)
    (profile : Profile) (is_student : Bool) : String :=
  let parts :=
    prefParts profile is_student ++
    listJoinParts (pyGet profile.skills) ++
    projParts (pyGet profile.projects) ++
    strParts (pyGet profile.aspirations) ++
    resumeParts jsonDec (pyGet profile.parsed_resume) ++
    projParts (pyGet profile.experiences) ++
    listJoinParts (pyGet profile.achievements) ++
    strParts (pyGet profile.major) ++
    listJoinParts (pyGet profile.relevant_coursework)
  let combined := String.intercalate " " parts
  String.mk (pyStripChars (collapseWS combined.toList))

/-- An association list standing for a Python dictionary whose keys are
arbitrary (hashable) values compared with `==`. -/
abbrev PyAssoc (α : Type) := List (PyVal × α)

/-- Dictionary lookup (`d[k]` / `k in d`), first entry whose key compares
`==` to `k`. -/
def pyLookup {α : Type} (k : PyVal) : PyAssoc α → Option α
  | [] => Option.none
  | (k2, v) :: rest => if pyEq k2 k then some v else pyLookup k rest

/-- Dictionary assignment `d[k] = v`: overwrite the value of the first entry
whose key compares equal (keeping the stored key object, as Python does),
otherwise append a new entry. -/
def pyInsert {α : Type} (k : PyVal) (v : α) : PyAssoc α → PyAssoc α
  | [] => [(k, v)]
  | (k2, v2) :: rest =>
    if pyEq k2 k then (k2, v) :: rest else (k2, v2) :: pyInsert k v rest

/-- Embedding of `d[k].append(x)` on a dictionary of lists (no-op on a missing key, which
the call sites guard against). -/
def pyAppendAt {α : Type} (k : PyVal) (x : α) : PyAssoc (List α) → PyAssoc (List α)
  | [] => []
  | (k2, l) :: rest =>
    if pyEq k2 k then (k2, l ++ [x]) :: rest else (k2, l) :: pyAppendAt k x rest

/-- Lookup in a string-keyed dictionary. -/
def strLookup {α : Type} (k : String) : List (String × α) → Option α
  | [] => Option.none
  | (k2, v) :: rest => if k2 = k then some v else strLookup k rest

/-- Assignment in a string-keyed dictionary. -/
def strInsert {α : Type} (k : String) (v : α) : List (String × α) → List (String × α)
  | [] => [(k, v)]
  | (k2, v2) :: rest =>
    if k2 = k then (k2, v) :: rest else (k2, v2) :: strInsert k v rest

/-- One assignment record appended to `mentor_assignments[mentor_id]`:
`student_id or id`, name defaulting to `"Unknown"`, email defaulting to
`""`, and the best similarity score. -/
structure MenteeAssignment where
  mentee_id : PyVal
  mentee_name : PyVal
  mentee_email : PyVal
  similarity_score : ℚ

/-- One value of the `matches` mapping. -/
structure MentorRecord where
  mentor_id : PyVal
  mentor_name : PyVal
  mentor_email : PyVal
  capacity : Int
  assigned_count : Nat
  mentees : List MenteeAssignment

/-- Build the assignment record for the chosen mentee. -/
def mkAssignment (p : Profile) (s : ℚ) : MenteeAssignment :=
  { mentee_id := pyOr (pyGet p.student_id) (pyGet p.id),
    mentee_name := p.name.getD (.str "Unknown"),
    mentee_email := p.email.getD (.str ""),
    similarity_score := s }

/-- Build the `matches` record for one mentor. -/
def mkRecord (m : Profile) (l : List MenteeAssignment) : MentorRecord :=
  { mentor_id := pyId m,
    mentor_name := m.name.getD (.str "Unknown"),
    mentor_email := m.email.getD (.str ""),
    capacity := m.mentor_capacity.getD 0,
    assigned_count := l.length,
    mentees := l }

/-- The inner mentee scan of `match_mentees_to_mentors`, started with
`best_mentee_idx = None`, `best_similarity = -1.0` and updated on a strictly
greater score. -/
def scanBest (sim : Nat → ℚ) : List Nat → Option Nat × ℚ → Option Nat × ℚ
  | [], acc => acc
  | i :: rest, acc => scanBest sim rest (if acc.2 < sim i then (some i, sim i) else acc)

/-- Best mentee index and score for one mentor column over
`range(len(mentees))`. -/
def bestMentee (sim : Nat → ℚ) (n : Nat) : Option Nat × ℚ :=
  scanBest sim (List.range n) (Option.none, -1)

/-- First loop of `match_mentees_to_mentors`: record capacity and an empty
assignment list for every willing mentor with positive capacity. -/
def loop1 : List Profile → PyAssoc Int × PyAssoc (List MenteeAssignment) →
    PyAssoc Int × PyAssoc (List MenteeAssignment)
  | [], st => st
  | m :: rest, (caps, asgn) =>
    loop1 rest
      (if mentorEligible m then
        (pyInsert (pyId m) (m.mentor_capacity.getD 0) caps,
         pyInsert (pyId m) [] asgn)
      else (caps, asgn))

/-- Second loop of `match_mentees_to_mentors` over `enumerate(mentors)`:
skip mentors missing from the capacity dictionary, otherwise find the best
mentee and, if its score is `> 0`, append the assignment record. -/
def assignLoop (mentees : List Profile) (sim : Nat → Nat → ℚ) (caps : PyAssoc Int) :
    List (Nat × Profile) → PyAssoc (List MenteeAssignment) →
    PyAssoc (List MenteeAssignment)
  | [], asgn => asgn
  | (j, m) :: rest, asgn =>
    assignLoop mentees sim caps rest
      (if (pyLookup (pyId m) caps).isSome then
        match bestMentee (fun i => sim i j) mentees.length with
        | (some i, bs) =>
          if 0 < bs then pyAppendAt (pyId m) (mkAssignment (mentees.getD i default) bs) asgn
          else asgn
        | (Option.none, _) => asgn
      else asgn)

/-- Third loop of `match_mentees_to_mentors`: emit
`result[str(mentor_id)]` for every mentor whose assignment list is
non-empty. -/
def buildResult (asgn : PyAssoc (List MenteeAssignment)) :
    List Profile → List (String × MentorRecord) → List (String × MentorRecord)
  | [], res => res
  | m :: rest, res =>
    buildResult asgn rest
      (match pyLookup (pyId m) asgn with
       | some l => if 0 < l.length then strInsert (pyStr (pyId m)) (mkRecord m l) res else res
       | Option.none => res)

/-- Embedding of `match_mentees_to_mentors`. -/
def match_mentees_to_mentors (mentors mentees : List Profile)
    (sim : Nat → Nat → ℚ) : List (String × MentorRecord) :=
  let st := loop1 mentors ([], [])
  let asgn := assignLoop mentees sim st.1 mentors.enum st.2
  buildResult asgn mentors []

/-- The `location` string passed to the similarity stage:
`m.get('location', '') or ''`. -/
def locOf (p : Profile) : PyVal := pyOr (p.location.getD (.str "")) (.str "")

/-- Round half to even, as Python's `round`. -/
def roundHalfEven (q : ℚ) : Int :=
  let f := ⌊q⌋
  if q - f < 1 / 2 then f
  else if (1 : ℚ) / 2 < q - f then f + 1
  else if Even f then f else f + 1

/-- Python `round(x, 2)` over the exact rationals of the model. -/
def pyRound2 (q : ℚ) : ℚ := (roundHalfEven (q * 100) : ℚ) / 100

/-- The success statistics of `perform_matching`. -/
structure MatchStats where
  total_mentors : Nat
  total_mentees : Nat
  total_mentees_assigned : Nat
  total_capacity : Int
  utilization_rate : ℚ

/-- The result document of `perform_matching`; `statistics` is present only
on success. -/
structure MatchResult where
  success : Bool
  message : String
  statistics : Option MatchStats
  matchesMap : List (String × MentorRecord)

/-- Embedding of `perform_matching`: filter both populations, short-circuit with a
non-exceptional failure result when either side is empty, otherwise build the
combined similarity matrix (profile weight 0.7, location weight 0.3) over the
filtered lists, match, and assemble statistics.  The TF-IDF/cosine stage is
the external parameter `profSim`, invoked on the filtered populations. -/
def eligMentors (mentorsData : List Profile) : List Profile :=
  mentorsData.filter mentorEligible

def eligMentees (menteesData : List Profile) : List Profile :=
  menteesData.filter menteeEligible

/-- The combined similarity matrix `perform_matching` feeds to the matcher:
the external cosine matrix over the filtered populations, scrubbed and
blended with location similarity at weights 0.7 / 0.3. -/
def pipelineSim (profSim : List Profile → List Profile → Nat → Nat → FVal)
    (mentors mentees : List Profile) : Nat → Nat → ℚ :=
  compute_similarity_scores (profSim mentors mentees)
    (mentors.map locOf) (mentees.map locOf) (7 / 10) (3 / 10)

def perform_matching (profSim : List Profile → List Profile → Nat → Nat → FVal)
    (mentorsData menteesData : List Profile) : MatchResult :=
  let mentors := eligMentors mentorsData
  let mentees := eligMentees menteesData
  if mentors.isEmpty then
    { success := false,
      message := "No mentors available for matching (willing_to_be_mentor=true AND capacity>0)",
      statistics := Option.none,
      matchesMap := [] }
  else if mentees.isEmpty then
    { success := false,
      message := "No mentees available for matching (mentorship_interest=true AND mentor_paired=false)",
      statistics := Option.none,
      matchesMap := [] }
  else
    let found := match_mentees_to_mentors mentors mentees (pipelineSim profSim mentors mentees)
    let assigned := (found.map (fun kv => kv.2.mentees.length)).sum
    let totalCap := (mentors.map (fun m => m.mentor_capacity.getD 0)).sum
    { success := true,
      message := "Successfully matched " ++ toString assigned ++ " mentees to mentors",
      statistics := some
        { total_mentors := mentors.length,
          total_mentees := mentees.length,
          total_mentees_assigned := assigned,
          total_capacity := totalCap,
          utilization_rate :=
            if 0 < totalCap then pyRound2 ((assigned : ℚ) / (totalCap : ℚ) * 100) else 0 },
      matchesMap := found }

attribute [local semireducible] Rat.mul Rat.inv Rat.add Rat.sub

/-! Concrete fixtures used by witnesses and counterexamples. -/

/-- A willing mentor with capacity 1 and id 1. -/
def mentorA : Profile :=
  { id := some (.int 1), willing_to_be_mentor := some (.bool true), mentor_capacity := some 1 }

/-- A mentor whose `willing_to_be_mentor` is the string `"false"`. -/
def mentorWF : Profile :=
  { id := some (.int 1), willing_to_be_mentor := some (.str "false"), mentor_capacity := some 2 }

/-- A mentor with positive capacity but `willing_to_be_mentor` absent. -/
def mentorNoWill : Profile :=
  { id := some (.int 1), mentor_capacity := some 3 }

/-- An interested, unpaired mentee with id 10. -/
def menteeB : Profile :=
  { id := some (.int 10), mentorship_interest := some (.bool true) }

/-- An eligible mentee carrying a falsy `student_id` 0 next to `id` 5. -/
def menteeSid0 : Profile :=
  { id := some (.int 5), student_id := some (.int 0),
    mentorship_interest := some (.bool true) }

/-- A constant external cosine matrix with every entry 1.0. -/
def simOne : List Profile → List Profile → Nat → Nat → FVal := fun _ _ _ _ => .val 1

/-! Generic lemmas about the dictionary model. -/

theorem strLookup_insert_self {α : Type} (k : String) (v : α) (l : List (String × α)) :
    strLookup k (strInsert k v l) = some v := by
  induction l with
  | nil => simp [strInsert, strLookup]
  | cons hd tl ih =>
    obtain ⟨k1, v1⟩ := hd
    by_cases h : k1 = k <;> simp [strInsert, strLookup, h, ih]

theorem strLookup_insert_ne {α : Type} (k k2 : String) (v : α) (l : List (String × α))
    (h : k2 ≠ k) : strLookup k (strInsert k2 v l) = strLookup k l := by
  induction l with
  | nil => simp [strInsert, strLookup, h]
  | cons hd tl ih =>
    obtain ⟨k1, v1⟩ := hd
    by_cases h2 : k1 = k2
    · subst h2; simp [strInsert, strLookup, h, ih]
    · by_cases h3 : k1 = k <;> simp [strInsert, strLookup, h2, h3, Ne.symm h, ih]

theorem strInsert_mem {α : Type} {kv : String × α} {k : String} {v : α}
    {l : List (String × α)} (h : kv ∈ strInsert k v l) :
    (kv.1 = k ∧ kv.2 = v) ∨ kv ∈ l := by
  induction l with
  | nil => simp [strInsert] at h; simp [h]
  | cons hd tl ih =>
    obtain ⟨k1, v1⟩ := hd
    by_cases h2 : k1 = k
    · subst h2
      simp [strInsert] at h
      rcases h with h | h
      · exact Or.inl (by simp [h])
      · exact Or.inr (by simp [h])
    · simp [strInsert, h2] at h
      rcases h with h | h
      · exact Or.inr (by simp [h])
      · rcases ih h with h3 | h3
        · exact Or.inl h3
        · exact Or.inr (List.mem_cons_of_mem _ h3)

theorem strLookup_eq_none {α : Type} {k : String} {l : List (String × α)}
    (h : ∀ kv ∈ l, kv.1 ≠ k) : strLookup k l = Option.none := by
  induction l with
  | nil => rfl
  | cons hd tl ih =>
    obtain ⟨k1, v1⟩ := hd
    have h1 : k1 ≠ k := h (k1, v1) (List.mem_cons_self _ _)
    simp only [strLookup, if_neg h1]
    exact ih (fun kv hkv => h kv (List.mem_cons_of_mem _ hkv))

theorem pyLookup_mem {α : Type} {k : PyVal} {d : PyAssoc α} {v : α}
    (h : pyLookup k d = some v) : ∃ kv ∈ d, kv.2 = v := by
  induction d with
  | nil => simp [pyLookup] at h
  | cons hd tl ih =>
    obtain ⟨k1, v1⟩ := hd
    by_cases h2 : pyEq k1 k = true
    · simp [pyLookup, h2] at h
      exact ⟨(k1, v1), List.mem_cons_self _ _, h⟩
    · simp [pyLookup, h2] at h
      obtain ⟨kv, hkv, hv⟩ := ih h
      exact ⟨kv, List.mem_cons_of_mem _ hkv, hv⟩

theorem pyInsert_of_no_match {α : Type} {k : PyVal} (v : α) {d : PyAssoc α}
    (h : ∀ e ∈ d, pyEq e.1 k = false) : pyInsert k v d = d ++ [(k, v)] := by
  induction d with
  | nil => rfl
  | cons hd tl ih =>
    obtain ⟨k1, v1⟩ := hd
    have h1 : pyEq k1 k = false := h (k1, v1) (List.mem_cons_self _ _)
    have htl := ih (fun e he => h e (List.mem_cons_of_mem _ he))
    simp [pyInsert, h1, htl]

theorem pyAppendAt_append {α : Type} {k : PyVal} (x : α) {pre d : PyAssoc (List α)}
    (h : ∀ e ∈ pre, pyEq e.1 k = false) :
    pyAppendAt k x (pre ++ d) = pre ++ pyAppendAt k x d := by
  induction pre with
  | nil => rfl
  | cons hd tl ih =>
    obtain ⟨k1, v1⟩ := hd
    have h1 : pyEq k1 k = false := h (k1, v1) (List.mem_cons_self _ _)
    have htl := ih (fun e he => h e (List.mem_cons_of_mem _ he))
    simp [pyAppendAt, h1, htl]

theorem pyLookup_append {α : Type} {k : PyVal} {pre d : PyAssoc α}
    (h : ∀ e ∈ pre, pyEq e.1 k = false) :
    pyLookup k (pre ++ d) = pyLookup k d := by
  induction pre with
  | nil => rfl
  | cons hd tl ih =>
    obtain ⟨k1, v1⟩ := hd
    have h1 : pyEq k1 k = false := h (k1, v1) (List.mem_cons_self _ _)
    have htl := ih (fun e he => h e (List.mem_cons_of_mem _ he))
    simp [pyLookup, h1, htl]

/-! The inner scan of the matcher selects the first-seen strict argmax. -/

theorem scanBest_append (sim : Nat → ℚ) (l : List Nat) (i : Nat) (acc : Option Nat × ℚ) :
    scanBest sim (l ++ [i]) acc =
      (let r := scanBest sim l acc
       if r.2 < sim i then (some i, sim i) else r) := by
  induction l generalizing acc with
  | nil => rfl
  | cons hd tl ih =>
    simp only [List.cons_append, scanBest]
    exact ih _

theorem bestMentee_succ (sim : Nat → ℚ) (n : Nat) :
    bestMentee sim (n + 1) =
      (let r := bestMentee sim n
       if r.2 < sim n then (some n, sim n) else r) := by
  unfold bestMentee
  rw [List.range_succ, scanBest_append]

theorem bestMentee_spec (sim : Nat → ℚ) (n : Nat) :
    (bestMentee sim n = (Option.none, -1) ∧ ∀ k < n, sim k ≤ -1) ∨
    (∃ i, i < n ∧ bestMentee sim n = (some i, sim i) ∧ -1 < sim i ∧
      (∀ k < n, sim k ≤ sim i) ∧ (∀ k < i, sim k < sim i)) := by
  induction n with
  | zero => exact Or.inl ⟨rfl, fun k hk => absurd hk (Nat.not_lt_zero k)⟩
  | succ n ih =>
    rw [bestMentee_succ]
    rcases ih with ⟨heq, hall⟩ | ⟨i, hi, heq, hgt, hmax, hfirst⟩
    · rw [heq]
      by_cases hn : (-1 : ℚ) < sim n
      · refine Or.inr ⟨n, Nat.lt_succ_self n, by simp [hn], hn, ?_, ?_⟩
        · intro k hk
          rcases Nat.lt_succ_iff_lt_or_eq.mp hk with hk | hk
          · exact le_trans (hall k hk) (le_of_lt hn)
          · subst hk; exact le_refl _
        · intro k hk
          exact lt_of_le_of_lt (hall k hk) hn
      · refine Or.inl ⟨by simp [hn], ?_⟩
        intro k hk
        rcases Nat.lt_succ_iff_lt_or_eq.mp hk with hk | hk
        · exact hall k hk
        · subst hk; exact not_lt.mp hn
    · rw [heq]
      by_cases hn : sim i < sim n
      · refine Or.inr ⟨n, Nat.lt_succ_self n, by simp [hn], lt_trans hgt hn, ?_, ?_⟩
        · intro k hk
          rcases Nat.lt_succ_iff_lt_or_eq.mp hk with hk | hk
          · exact le_trans (hmax k hk) (le_of_lt hn)
          · subst hk; exact le_refl _
        · intro k hk
          exact lt_of_le_of_lt (hmax k hk) hn
      · refine Or.inr ⟨i, Nat.lt_succ_of_lt hi, by simp [hn], hgt, ?_, hfirst⟩
        intro k hk
        rcases Nat.lt_succ_iff_lt_or_eq.mp hk with hk | hk
        · exact hmax k hk
        · subst hk; exact not_lt.mp hn

/-! Characterisation of the matcher under distinct mentor identifiers. -/

/-- Read `mentor.get('mentor_capacity')` with null/absent read as 0. -/
def capD (m : Profile) : Int := m.mentor_capacity.getD 0

/-- The assignment list the second loop produces for the mentor in column
`j`: a singleton when the best score is positive, empty otherwise. -/
def bestFor (mentees : List Profile) (sim : Nat → Nat → ℚ) (j : Nat) :
    List MenteeAssignment :=
  match bestMentee (fun i => sim i j) mentees.length with
  | (some i, bs) => if 0 < bs then [mkAssignment (mentees.getD i default) bs] else []
  | (Option.none, _) => []

theorem loop1_char (ms : List Profile) (caps : PyAssoc Int)
    (asgn : PyAssoc (List MenteeAssignment))
    (hall : ∀ m ∈ ms, mentorEligible m = true)
    (hdist : ms.Pairwise (fun a b => pyEq (pyId a) (pyId b) = false))
    (hc : ∀ m ∈ ms, ∀ e ∈ caps, pyEq e.1 (pyId m) = false)
    (ha : ∀ m ∈ ms, ∀ e ∈ asgn, pyEq e.1 (pyId m) = false) :
    loop1 ms (caps, asgn) =
      (caps ++ ms.map (fun m => (pyId m, capD m)),
       asgn ++ ms.map (fun m => (pyId m, ([] : List MenteeAssignment)))) := by
  simp only [capD]
  induction ms generalizing caps asgn with
  | nil => simp [loop1]
  | cons m rest ih =>
    have hm : mentorEligible m = true := hall m (List.mem_cons_self _ _)
    have hpw := List.pairwise_cons.mp hdist
    simp only [loop1, hm, if_pos]
    rw [pyInsert_of_no_match (m.mentor_capacity.getD 0) (hc m (List.mem_cons_self _ _)),
        pyInsert_of_no_match ([] : List MenteeAssignment) (ha m (List.mem_cons_self _ _))]
    rw [ih (caps ++ [(pyId m, m.mentor_capacity.getD 0)]) (asgn ++ [(pyId m, ([] : List MenteeAssignment))])
        (fun m2 h2 => hall m2 (List.mem_cons_of_mem _ h2)) hpw.2
        ?_ ?_]
    · simp
    · intro m2 h2 e he
      rcases List.mem_append.mp he with he | he
      · exact hc m2 (List.mem_cons_of_mem _ h2) e he
      · simp only [List.mem_singleton] at he
        subst he
        exact hpw.1 m2 h2
    · intro m2 h2 e he
      rcases List.mem_append.mp he with he | he
      · exact ha m2 (List.mem_cons_of_mem _ h2) e he
      · simp only [List.mem_singleton] at he
        subst he
        exact hpw.1 m2 h2

theorem map_const_enumFrom (ms : List Profile) (n : Nat)
    (c : List MenteeAssignment) :
    (List.enumFrom n ms).map (fun p => (pyId p.2, c)) = ms.map (fun m => (pyId m, c)) := by
  induction ms generalizing n with
  | nil => rfl
  | cons m rest ih => simp [List.enumFrom, ih]

theorem pyLookup_isSome_of_self_mem {α : Type} (ms : List Profile) (m : Profile)
    (hm : m ∈ ms) (f : Profile → α) :
    (pyLookup (pyId m) (ms.map (fun m2 => (pyId m2, f m2)))).isSome = true := by
  induction ms with
  | nil => simp at hm
  | cons m0 rest ih =>
    by_cases h : pyEq (pyId m0) (pyId m) = true
    · simp [pyLookup, h]
    · have hm2 : m ∈ rest := by
        rcases List.mem_cons.mp hm with h2 | h2
        · subst h2; exact absurd (pyEq_refl (pyId m)) h
        · exact h2
      simp [pyLookup, h, ih hm2]

theorem assignLoop_char (mentees : List Profile) (sim : Nat → Nat → ℚ)
    (caps : PyAssoc Int) (ms : List Profile) (n : Nat)
    (g : Nat → List MenteeAssignment) (pre : PyAssoc (List MenteeAssignment))
    (hdist : ms.Pairwise (fun a b => pyEq (pyId a) (pyId b) = false))
    (hpre : ∀ m ∈ ms, ∀ e ∈ pre, pyEq e.1 (pyId m) = false)
    (hcaps : ∀ m ∈ ms, (pyLookup (pyId m) caps).isSome = true) :
    assignLoop mentees sim caps (List.enumFrom n ms)
        (pre ++ (List.enumFrom n ms).map (fun p => (pyId p.2, g p.1)))
      = pre ++ (List.enumFrom n ms).map
          (fun p => (pyId p.2, g p.1 ++ bestFor mentees sim p.1)) := by
  induction ms generalizing n pre with
  | nil => simp [assignLoop, List.enumFrom]
  | cons m rest ih =>
    have hpw := List.pairwise_cons.mp hdist
    have hsome : (pyLookup (pyId m) caps).isSome = true :=
      hcaps m (List.mem_cons_self _ _)
    have hprem : ∀ e ∈ pre, pyEq e.1 (pyId m) = false :=
      hpre m (List.mem_cons_self _ _)
    simp only [List.enumFrom, List.map_cons, assignLoop, hsome, if_pos]
    have hstep :
        (match bestMentee (fun i => sim i n) mentees.length with
          | (some i, bs) =>
            if 0 < bs then
              pyAppendAt (pyId m) (mkAssignment (mentees.getD i default) bs)
                (pre ++ (pyId m, g n) :: (List.enumFrom (n + 1) rest).map
                  (fun p => (pyId p.2, g p.1)))
            else pre ++ (pyId m, g n) :: (List.enumFrom (n + 1) rest).map
                  (fun p => (pyId p.2, g p.1))
          | (Option.none, _) => pre ++ (pyId m, g n) :: (List.enumFrom (n + 1) rest).map
                  (fun p => (pyId p.2, g p.1)))
        = (pre ++ [(pyId m, g n ++ bestFor mentees sim n)]) ++
            (List.enumFrom (n + 1) rest).map (fun p => (pyId p.2, g p.1)) := by
      unfold bestFor
      rcases hbm : bestMentee (fun i => sim i n) mentees.length with ⟨bi, bs⟩
      cases bi with
      | none => simp
      | some i =>
        by_cases hbs : 0 < bs
        · simp only [hbs, if_pos]
          rw [pyAppendAt_append _ hprem]
          simp [pyAppendAt, pyEq_refl]
        · simp [hbs]
    rw [hstep]
    rw [ih (n + 1) (pre ++ [(pyId m, g n ++ bestFor mentees sim n)]) hpw.2 ?_
        (fun m2 h2 => hcaps m2 (List.mem_cons_of_mem _ h2))]
    · simp
    · intro m2 h2 e he
      rcases List.mem_append.mp he with he | he
      · exact hpre m2 (List.mem_cons_of_mem _ h2) e he
      · simp only [List.mem_singleton] at he
        subst he
        exact hpw.1 m2 h2

theorem pyLookup_enumFrom_map (ms : List Profile)
    (f : Nat → List MenteeAssignment) (n j : Nat) (hj : j < ms.length)
    (hdist : ms.Pairwise (fun a b => pyEq (pyId a) (pyId b) = false)) :
    pyLookup (pyId (ms.get ⟨j, hj⟩))
        ((List.enumFrom n ms).map (fun p => (pyId p.2, f p.1)))
      = some (f (n + j)) := by
  induction ms generalizing n j with
  | nil => simp at hj
  | cons m rest ih =>
    have hpw := List.pairwise_cons.mp hdist
    cases j with
    | zero => simp [List.enumFrom, pyLookup, pyEq_refl]
    | succ j =>
      have hj2 : j < rest.length := Nat.lt_of_succ_lt_succ hj
      have hne : pyEq (pyId m) (pyId (rest.get ⟨j, hj2⟩)) = false :=
        hpw.1 _ (rest.get_mem _ _)
      have hget : (m :: rest).get ⟨j + 1, hj⟩ = rest.get ⟨j, hj2⟩ := rfl
      rw [hget]
      simp only [List.enumFrom, List.map_cons, pyLookup, hne, Bool.false_eq_true, if_neg]
      have harith : n + 1 + j = n + (j + 1) := by omega
      rw [ih (n + 1) j hj2 hpw.2, harith]
      simp

theorem buildResult_append (asgn : PyAssoc (List MenteeAssignment))
    (l1 l2 : List Profile) (res : List (String × MentorRecord)) :
    buildResult asgn (l1 ++ l2) res = buildResult asgn l2 (buildResult asgn l1 res) := by
  induction l1 generalizing res with
  | nil => rfl
  | cons m rest ih =>
    simp only [List.cons_append, buildResult]
    exact ih _

theorem buildResult_mem (asgn : PyAssoc (List MenteeAssignment))
    (ms : List Profile) (res : List (String × MentorRecord)) :
    ∀ kv ∈ buildResult asgn ms res,
      kv ∈ res ∨ ∃ m ∈ ms, ∃ l, pyLookup (pyId m) asgn = some l ∧ 0 < l.length ∧
        kv.1 = pyStr (pyId m) ∧ kv.2 = mkRecord m l := by
  induction ms generalizing res with
  | nil => intro kv hkv; exact Or.inl hkv
  | cons m rest ih =>
    intro kv hkv
    simp only [buildResult] at hkv
    rcases hlk : pyLookup (pyId m) asgn with _ | l
    · rw [hlk] at hkv
      rcases ih _ kv hkv with h | ⟨m2, hm2, l2, h2⟩
      · exact Or.inl h
      · exact Or.inr ⟨m2, List.mem_cons_of_mem _ hm2, l2, h2⟩
    · rw [hlk] at hkv
      by_cases hl : 0 < l.length
      · simp only [hl, if_pos] at hkv
        rcases ih _ kv hkv with h | ⟨m2, hm2, l2, h2⟩
        · rcases strInsert_mem h with ⟨h1, h2⟩ | h3
          · exact Or.inr ⟨m, List.mem_cons_self _ _, l, hlk, hl, h1, h2⟩
          · exact Or.inl h3
        · exact Or.inr ⟨m2, List.mem_cons_of_mem _ hm2, l2, h2⟩
      · simp only [hl, if_neg, if_false] at hkv
        rcases ih _ kv hkv with h | ⟨m2, hm2, l2, h2⟩
        · exact Or.inl h
        · exact Or.inr ⟨m2, List.mem_cons_of_mem _ hm2, l2, h2⟩

theorem buildResult_lookup_unchanged (asgn : PyAssoc (List MenteeAssignment))
    {K : String} (ms : List Profile) (res : List (String × MentorRecord))
    (h : ∀ m ∈ ms, pyStr (pyId m) ≠ K) :
    strLookup K (buildResult asgn ms res) = strLookup K res := by
  induction ms generalizing res with
  | nil => rfl
  | cons m rest ih =>
    simp only [buildResult]
    rcases pyLookup (pyId m) asgn with _ | l
    · exact ih _ (fun m2 h2 => h m2 (List.mem_cons_of_mem _ h2))
    · by_cases hl : 0 < l.length
      · simp only [hl, if_pos]
        rw [ih _ (fun m2 h2 => h m2 (List.mem_cons_of_mem _ h2))]
        exact strLookup_insert_ne _ _ _ _ (h m (List.mem_cons_self _ _))
      · simp only [hl, if_neg, if_false]
        exact ih _ (fun m2 h2 => h m2 (List.mem_cons_of_mem _ h2))

/-- The assignment dictionary after the second loop, under the hypotheses of
`matcher_char`: each mentor's entry holds exactly its own best-match list. -/
def asgnMap (mentors mentees : List Profile) (sim : Nat → Nat → ℚ) :
    PyAssoc (List MenteeAssignment) :=
  (List.enumFrom 0 mentors).map (fun p => (pyId p.2, bestFor mentees sim p.1))

theorem matcher_char (mentors mentees : List Profile) (sim : Nat → Nat → ℚ)
    (hall : ∀ m ∈ mentors, mentorEligible m = true)
    (hdist : mentors.Pairwise (fun a b => pyEq (pyId a) (pyId b) = false)) :
    match_mentees_to_mentors mentors mentees sim
      = buildResult (asgnMap mentors mentees sim) mentors [] := by
  simp only [match_mentees_to_mentors]
  rw [loop1_char mentors [] [] hall hdist (by simp) (by simp)]
  simp only [List.nil_append]
  have henum : mentors.enum = List.enumFrom 0 mentors := rfl
  have hcaps : ∀ m ∈ mentors,
      (pyLookup (pyId m) (mentors.map (fun m2 => (pyId m2, capD m2)))).isSome = true :=
    fun m hm => pyLookup_isSome_of_self_mem mentors m hm capD
  have hchar := assignLoop_char mentees sim (mentors.map (fun m2 => (pyId m2, capD m2)))
    mentors 0 (fun _ => []) [] hdist (by simp) hcaps
  simp only [List.nil_append] at hchar
  rw [henum, ← map_const_enumFrom mentors 0 [], hchar]
  rfl

theorem pairwise_split {α : Type} {R : α → α → Prop} {l : List α} (j : Nat)
    (hj : j < l.length) (h : l.Pairwise R) :
    (∀ a ∈ l.take j, R a (l.get ⟨j, hj⟩)) ∧
      (∀ b ∈ l.drop (j + 1), R (l.get ⟨j, hj⟩) b) := by
  have h1 : l = l.take j ++ l.get ⟨j, hj⟩ :: l.drop (j + 1) := by
    conv_lhs => rw [← List.take_append_drop j l]
    congr 1
    rw [List.get_eq_getElem]
    exact List.drop_eq_getElem_cons hj
  rw [h1] at h
  rcases List.pairwise_append.mp h with ⟨hp1, hp2, hp3⟩
  rcases List.pairwise_cons.mp hp2 with ⟨hhd, htl⟩
  exact ⟨fun a ha => hp3 a ha _ (List.mem_cons_self _ _), hhd⟩

theorem matcher_lookup (mentors mentees : List Profile) (sim : Nat → Nat → ℚ)
    (hall : ∀ m ∈ mentors, mentorEligible m = true)
    (hdist : mentors.Pairwise (fun a b => pyEq (pyId a) (pyId b) = false))
    (hdistS : mentors.Pairwise (fun a b => pyStr (pyId a) ≠ pyStr (pyId b)))
    (j : Nat) (hj : j < mentors.length) :
    strLookup (pyStr (pyId (mentors.get ⟨j, hj⟩)))
        (match_mentees_to_mentors mentors mentees sim)
      = (if 0 < (bestFor mentees sim j).length then
          some (mkRecord (mentors.get ⟨j, hj⟩) (bestFor mentees sim j))
        else Option.none) := by
  rw [matcher_char mentors mentees sim hall hdist]
  have h1 : mentors = mentors.take j ++ mentors.get ⟨j, hj⟩ :: mentors.drop (j + 1) := by
    conv_lhs => rw [← List.take_append_drop j mentors]
    congr 1
    rw [List.get_eq_getElem]
    exact List.drop_eq_getElem_cons hj
  have hsplitS := pairwise_split j hj hdistS
  have hdrop : ∀ m2 ∈ mentors.drop (j + 1),
      pyStr (pyId m2) ≠ pyStr (pyId (mentors.get ⟨j, hj⟩)) :=
    fun m2 h2 => Ne.symm (hsplitS.2 m2 h2)
  have htake : ∀ m2 ∈ mentors.take j,
      pyStr (pyId m2) ≠ pyStr (pyId (mentors.get ⟨j, hj⟩)) :=
    fun m2 h2 => hsplitS.1 m2 h2
  have hlk : pyLookup (pyId (mentors.get ⟨j, hj⟩)) (asgnMap mentors mentees sim)
      = some (bestFor mentees sim j) := by
    have := pyLookup_enumFrom_map mentors (bestFor mentees sim) 0 j hj hdist
    simpa [asgnMap] using this
  have key : strLookup (pyStr (pyId (mentors.get ⟨j, hj⟩)))
      (buildResult (asgnMap mentors mentees sim)
        (mentors.take j ++ mentors.get ⟨j, hj⟩ :: mentors.drop (j + 1)) [])
      = (if 0 < (bestFor mentees sim j).length then
          some (mkRecord (mentors.get ⟨j, hj⟩) (bestFor mentees sim j))
        else Option.none) := by
    rw [buildResult_append]
    have hpre : strLookup (pyStr (pyId (mentors.get ⟨j, hj⟩)))
        (buildResult (asgnMap mentors mentees sim) (mentors.take j) []) = Option.none := by
      rw [buildResult_lookup_unchanged _ _ _ htake]
      rfl
    simp only [buildResult, hlk]
    by_cases hl : 0 < (bestFor mentees sim j).length
    · simp only [hl, if_pos]
      rw [buildResult_lookup_unchanged _ _ _ hdrop]
      exact strLookup_insert_self _ _ _
    · simp only [hl, if_neg, if_false]
      rw [buildResult_lookup_unchanged _ _ _ hdrop]
      exact hpre
  rw [← h1] at key
  exact key

/-! Provenance: every emitted record stems from a mentor of the input list
and every assignment from a mentee of the input list. -/

theorem pyInsert_mem {α : Type} {kv : PyVal × α} {k : PyVal} {v : α} {d : PyAssoc α}
    (h : kv ∈ pyInsert k v d) : kv.2 = v ∨ kv ∈ d := by
  induction d with
  | nil => simp [pyInsert] at h; simp [h]
  | cons hd tl ih =>
    obtain ⟨k1, v1⟩ := hd
    by_cases h2 : pyEq k1 k = true
    · simp [pyInsert, h2] at h
      rcases h with h | h
      · exact Or.inl (by simp [h])
      · exact Or.inr (List.mem_cons_of_mem _ h)
    · simp [pyInsert, h2] at h
      rcases h with h | h
      · exact Or.inr (by simp [h])
      · rcases ih h with h3 | h3
        · exact Or.inl h3
        · exact Or.inr (List.mem_cons_of_mem _ h3)

theorem pyAppendAt_mem {α : Type} {kv : PyVal × List α} {k : PyVal} {x : α}
    {d : PyAssoc (List α)} (h : kv ∈ pyAppendAt k x d) :
    kv ∈ d ∨ ∃ kv0 ∈ d, kv.2 = kv0.2 ++ [x] := by
  induction d with
  | nil => simp [pyAppendAt] at h
  | cons hd tl ih =>
    obtain ⟨k1, l1⟩ := hd
    by_cases h2 : pyEq k1 k = true
    · simp [pyAppendAt, h2] at h
      rcases h with h | h
      · exact Or.inr ⟨(k1, l1), List.mem_cons_self _ _, by simp [h]⟩
      · exact Or.inl (List.mem_cons_of_mem _ h)
    · simp [pyAppendAt, h2] at h
      rcases h with h | h
      · exact Or.inl (by simp [h])
      · rcases ih h with h3 | ⟨kv0, h4, h5⟩
        · exact Or.inl (List.mem_cons_of_mem _ h3)
        · exact Or.inr ⟨kv0, List.mem_cons_of_mem _ h4, h5⟩

/-- Every assignment list stored in the dictionary consists of records built
from members of the mentee list. -/
def AsgnOK (mentees : List Profile) (asgn : PyAssoc (List MenteeAssignment)) : Prop :=
  ∀ e ∈ asgn, ∀ a ∈ e.2, ∃ p ∈ mentees, a = mkAssignment p a.similarity_score

theorem loop1_asgnOK (ms mentees : List Profile) (caps : PyAssoc Int)
    (asgn : PyAssoc (List MenteeAssignment)) (h : AsgnOK mentees asgn) :
    AsgnOK mentees (loop1 ms (caps, asgn)).2 := by
  induction ms generalizing caps asgn with
  | nil => exact h
  | cons m rest ih =>
    simp only [loop1]
    by_cases he : mentorEligible m = true
    · simp only [he, if_pos]
      refine ih _ _ ?_
      intro e hein a ha
      rcases pyInsert_mem hein with h2 | h2
      · rw [h2] at ha; simp at ha
      · exact h e h2 a ha
    · simp only [he, if_neg, if_false]
      exact ih _ _ h

theorem assignLoop_asgnOK (mentees : List Profile) (sim : Nat → Nat → ℚ)
    (caps : PyAssoc Int) (rest : List (Nat × Profile))
    (asgn : PyAssoc (List MenteeAssignment)) (h : AsgnOK mentees asgn) :
    AsgnOK mentees (assignLoop mentees sim caps rest asgn) := by
  induction rest generalizing asgn with
  | nil => exact h
  | cons jm rest2 ih =>
    obtain ⟨j, m⟩ := jm
    simp only [assignLoop]
    by_cases hs : (pyLookup (pyId m) caps).isSome = true
    · simp only [hs, if_pos]
      rcases hbm : bestMentee (fun i => sim i j) mentees.length with ⟨bi, bs⟩
      cases bi with
      | none => exact ih _ h
      | some i =>
        by_cases hbs : 0 < bs
        · simp only [hbs, if_pos]
          have hi : i < mentees.length := by
            rcases bestMentee_spec (fun i2 => sim i2 j) mentees.length with
              ⟨heq, _⟩ | ⟨i2, hi2, heq, _⟩
            · rw [hbm] at heq; simp at heq
            · rw [hbm] at heq
              have h5 : some i = some i2 := congrArg Prod.fst heq
              have hii : i = i2 := Option.some.inj h5
              rw [hii]; exact hi2
          have hp : mentees.getD i default ∈ mentees := by
            rw [List.getD_eq_getElem?_getD, List.getElem?_eq_getElem hi]
            simp only [Option.getD_some]
            exact List.getElem_mem hi
          refine ih _ ?_
          intro e hein a ha
          rcases pyAppendAt_mem hein with h2 | ⟨kv0, h3, h4⟩
          · exact h e h2 a ha
          · rw [h4] at ha
            rcases List.mem_append.mp ha with ha | ha
            · exact h kv0 h3 a ha
            · simp only [List.mem_singleton] at ha
              subst ha
              exact ⟨mentees.getD i default, hp, rfl⟩
        · simp only [hbs, if_neg, if_false]
          exact ih _ h
    · simp only [hs, if_neg, if_false]
      exact ih _ h

theorem matcher_provenance (mentors mentees : List Profile) (sim : Nat → Nat → ℚ) :
    ∀ kv ∈ match_mentees_to_mentors mentors mentees sim,
      ∃ m ∈ mentors, kv.1 = pyStr (pyId m) ∧
        ∀ a ∈ kv.2.mentees, ∃ p ∈ mentees, a = mkAssignment p a.similarity_score := by
  intro kv hkv
  simp only [match_mentees_to_mentors] at hkv
  have hOK : AsgnOK mentees
      (assignLoop mentees sim (loop1 mentors ([], [])).1 mentors.enum
        (loop1 mentors ([], [])).2) := by
    refine assignLoop_asgnOK _ _ _ _ _ ?_
    exact loop1_asgnOK mentors mentees [] [] (by intro e he; simp at he)
  rcases buildResult_mem _ _ _ kv hkv with h | ⟨m, hm, l, hlk, hlen, hk1, hk2⟩
  · simp at h
  · refine ⟨m, hm, hk1, ?_⟩
    intro a ha
    obtain ⟨kv0, hkv0, hv⟩ := pyLookup_mem hlk
    have : kv.2.mentees = l := by rw [hk2]; rfl
    rw [this] at ha
    exact hOK kv0 hkv0 a (by rw [hv]; exact ha)

/-! Space normalisation: the collapse-and-strip tail of the extractor and of
the location normaliser produces a single-spaced, trimmed string. -/

/-- No two adjacent space characters. -/
def noTwoSpaces : List Char → Bool
  | [] => true
  | [_] => true
  | c :: d :: rest => !(c = ' ' && d = ' ') && noTwoSpaces (d :: rest)

/-- Every whitespace character is a plain space. -/
def onlyPlainWS (l : List Char) : Bool := l.all (fun c => !c.isWhitespace || c = ' ')

/-- A space-normalised character list: whitespace only as single interior
plain spaces, no leading or trailing space. -/
def spaceNormalized (l : List Char) : Bool :=
  onlyPlainWS l && noTwoSpaces l &&
    decide (l.head? ≠ some ' ') && decide (l.getLast? ≠ some ' ')

mutual
theorem onlyPlainWS_collapseWS : ∀ l, onlyPlainWS (collapseWS l) = true
  | [] => rfl
  | c :: cs => by
    by_cases h : c.isWhitespace
    · have hr := onlyPlainWS_collapseRun cs
      simp only [collapseWS, h, if_pos, onlyPlainWS, List.all_cons] at hr ⊢
      simp [hr]
    · have hr := onlyPlainWS_collapseWS cs
      simp only [collapseWS, h, Bool.false_eq_true, if_neg, if_false, onlyPlainWS,
        List.all_cons] at hr ⊢
      simp [hr, h]
theorem onlyPlainWS_collapseRun : ∀ l, onlyPlainWS (collapseRun l) = true
  | [] => rfl
  | c :: cs => by
    by_cases h : c.isWhitespace
    · have hr := onlyPlainWS_collapseRun cs
      simp only [collapseRun, h, if_pos]
      exact hr
    · have hr := onlyPlainWS_collapseWS cs
      simp only [collapseRun, h, Bool.false_eq_true, if_neg, if_false, onlyPlainWS,
        List.all_cons] at hr ⊢
      simp [hr, h]
end

theorem noTwoSpaces_cons_of_ne (c : Char) (l : List Char) (hc : ¬c = ' ')
    (h : noTwoSpaces l = true) : noTwoSpaces (c :: l) = true := by
  cases l with
  | nil => rfl
  | cons d r => simp [noTwoSpaces, hc]; exact h

theorem noTwoSpaces_cons_of_head (l : List Char) (h : noTwoSpaces l = true)
    (hh : l.head? ≠ some ' ') : noTwoSpaces (' ' :: l) = true := by
  cases l with
  | nil => rfl
  | cons d r =>
    have hd : ¬d = ' ' := by simpa using hh
    simp [noTwoSpaces, hd]; exact h

theorem noTwoSpaces_tail {c : Char} {l : List Char}
    (h : noTwoSpaces (c :: l) = true) : noTwoSpaces l = true := by
  cases l with
  | nil => rfl
  | cons d r => simp [noTwoSpaces] at h ⊢; exact h.2

theorem not_space_of_not_ws {c : Char} (h : c.isWhitespace = false) : ¬c = ' ' := by
  intro hc; subst hc; simp [Char.isWhitespace] at h

mutual
theorem noTwo_collapseWS : ∀ l, noTwoSpaces (collapseWS l) = true
  | [] => rfl
  | c :: cs => by
    by_cases h : c.isWhitespace
    · simp only [collapseWS, h, if_pos]
      exact noTwoSpaces_cons_of_head _ (noTwo_collapseRun cs).1 (noTwo_collapseRun cs).2
    · simp only [collapseWS, h, Bool.false_eq_true, if_neg, if_false]
      exact noTwoSpaces_cons_of_ne _ _
        (not_space_of_not_ws (by simpa using h)) (noTwo_collapseWS cs)
theorem noTwo_collapseRun :
    ∀ l, noTwoSpaces (collapseRun l) = true ∧ (collapseRun l).head? ≠ some ' '
  | [] => ⟨rfl, by simp [collapseRun]⟩
  | c :: cs => by
    by_cases h : c.isWhitespace
    · simp only [collapseRun, h, if_pos]
      exact noTwo_collapseRun cs
    · simp only [collapseRun, h, Bool.false_eq_true, if_neg, if_false]
      refine ⟨noTwoSpaces_cons_of_ne _ _
        (not_space_of_not_ws (by simpa using h)) (noTwo_collapseWS cs), ?_⟩
      simpa using not_space_of_not_ws (show c.isWhitespace = false by simpa using h)
end

theorem head_dropWhile_not_ws (l : List Char) :
    ∀ c, ((l.dropWhile Char.isWhitespace).head? = some c) → c.isWhitespace = false := by
  induction l with
  | nil => intro c hc; simp [List.dropWhile] at hc
  | cons d r ih =>
    intro c hc
    by_cases h : d.isWhitespace
    · rw [List.dropWhile_cons_of_pos (by simpa using h)] at hc
      exact ih c hc
    · rw [List.dropWhile_cons_of_neg (by simpa using h)] at hc
      simp at hc
      rw [hc] at h
      simpa using h

theorem noTwoSpaces_dropWhile (l : List Char) (p : Char → Bool)
    (h : noTwoSpaces l = true) : noTwoSpaces (l.dropWhile p) = true := by
  induction l with
  | nil => exact h
  | cons d r ih =>
    by_cases hp : p d = true
    · rw [List.dropWhile_cons_of_pos hp]
      exact ih (noTwoSpaces_tail h)
    · rw [List.dropWhile_cons_of_neg (by simpa using hp)]
      exact h

theorem onlyPlainWS_dropWhile (l : List Char) (p : Char → Bool)
    (h : onlyPlainWS l = true) : onlyPlainWS (l.dropWhile p) = true := by
  induction l with
  | nil => exact h
  | cons d r ih =>
    simp only [onlyPlainWS, List.all_cons, Bool.and_eq_true] at h
    by_cases hp : p d = true
    · rw [List.dropWhile_cons_of_pos hp]
      exact ih h.2
    · rw [List.dropWhile_cons_of_neg (by simpa using hp)]
      simp only [onlyPlainWS, List.all_cons, Bool.and_eq_true]
      exact ⟨h.1, h.2⟩

theorem rstripWS_head (l : List Char) :
    rstripWS l = [] ∨ (rstripWS l).head? = l.head? := by
  induction l with
  | nil => exact Or.inl rfl
  | cons c cs ih =>
    rcases h : rstripWS cs with _ | ⟨d, r⟩
    · by_cases hc : c.isWhitespace
      · exact Or.inl (by simp [rstripWS, h, hc])
      · refine Or.inr ?_
        simp [rstripWS, h, hc]
    · refine Or.inr ?_
      simp [rstripWS, h]

theorem onlyPlainWS_rstripWS (l : List Char) (h : onlyPlainWS l = true) :
    onlyPlainWS (rstripWS l) = true := by
  induction l with
  | nil => exact h
  | cons c cs ih =>
    simp only [onlyPlainWS, List.all_cons, Bool.and_eq_true] at h
    rcases h2 : rstripWS cs with _ | ⟨d, r⟩
    · by_cases hc : c.isWhitespace <;>
        simp [rstripWS, h2, hc, onlyPlainWS, List.all_cons, h.1]
    · have := ih h.2
      rw [h2] at this
      simp [rstripWS, h2, onlyPlainWS, List.all_cons, h.1]
      simpa [onlyPlainWS] using this

theorem noTwoSpaces_rstripWS (l : List Char) (h : noTwoSpaces l = true) :
    noTwoSpaces (rstripWS l) = true := by
  induction l with
  | nil => exact h
  | cons c cs ih =>
    rcases h2 : rstripWS cs with _ | ⟨d, r⟩
    · by_cases hc : c.isWhitespace <;> simp [rstripWS, h2, hc, noTwoSpaces]
    · have htl := ih (noTwoSpaces_tail h)
      rw [h2] at htl
      simp only [rstripWS, h2]
      by_cases hcsp : c = ' '
      · subst hcsp
        refine noTwoSpaces_cons_of_head _ htl ?_
        rcases rstripWS_head cs with h3 | h3
        · rw [h3] at h2; simp at h2
        · rw [h2] at h3
          cases cs with
          | nil => simp [rstripWS] at h2
          | cons e es =>
            simp at h3
            have : ¬e = ' ' := by
              simp [noTwoSpaces] at h
              intro he
              exact absurd (h.1 he) (by simp)
            simp [h3]
            intro hde
            rw [hde] at this
            exact this rfl
      · exact noTwoSpaces_cons_of_ne _ _ hcsp htl

theorem rstripWS_last_not_ws (l : List Char) :
    ∀ c, (rstripWS l).getLast? = some c → c.isWhitespace = false := by
  induction l with
  | nil => intro c hc; simp [rstripWS] at hc
  | cons d cs ih =>
    intro c hc
    rcases h2 : rstripWS cs with _ | ⟨e, r⟩
    · by_cases hd : d.isWhitespace
      · have hred : rstripWS (d :: cs) = [] := by simp [rstripWS, h2, hd]
        rw [hred] at hc
        simp at hc
      · have hred : rstripWS (d :: cs) = [d] := by simp [rstripWS, h2, hd]
        rw [hred] at hc
        simp at hc
        rw [hc] at hd
        simpa using hd
    · have hred : rstripWS (d :: cs) = d :: e :: r := by simp [rstripWS, h2]
      rw [hred] at hc
      rw [List.getLast?_cons_cons] at hc
      rw [← h2] at hc
      exact ih c hc

theorem pyStripChars_head_not_ws (l : List Char) :
    ∀ c, (pyStripChars l).head? = some c → c.isWhitespace = false := by
  intro c hc
  unfold pyStripChars at hc
  rcases rstripWS_head (l.dropWhile Char.isWhitespace) with h | h
  · rw [h] at hc; simp at hc
  · rw [h] at hc
    exact head_dropWhile_not_ws l c hc

theorem spaceNormalized_strip_collapse (l : List Char) :
    spaceNormalized (pyStripChars (collapseWS l)) = true := by
  have h1 : onlyPlainWS (pyStripChars (collapseWS l)) = true :=
    onlyPlainWS_rstripWS _ (onlyPlainWS_dropWhile _ _ (onlyPlainWS_collapseWS l))
  have h2 : noTwoSpaces (pyStripChars (collapseWS l)) = true :=
    noTwoSpaces_rstripWS _ (noTwoSpaces_dropWhile _ _ (noTwo_collapseWS l))
  have h3 : (pyStripChars (collapseWS l)).head? ≠ some ' ' := by
    intro hc
    have := pyStripChars_head_not_ws (collapseWS l) ' ' hc
    simp [Char.isWhitespace] at this
  have h4 : (pyStripChars (collapseWS l)).getLast? ≠ some ' ' := by
    intro hc
    have := rstripWS_last_not_ws ((collapseWS l).dropWhile Char.isWhitespace) ' ' hc
    simp [Char.isWhitespace] at this
  simp [spaceNormalized, h1, h2, h3, h4]

theorem wordsAux_ne_nil_of_acc :
    ∀ (cs : List Char) (w : List Char), w ≠ [] → wordsAux w cs ≠ [] := by
  intro cs
  induction cs with
  | nil =>
    intro w hw
    simp [wordsAux, hw]
  | cons c cs2 ih =>
    intro w hw
    by_cases h : c.isWhitespace
    · have hwe : w.isEmpty = false := by simpa using hw
      simp [wordsAux, h, hwe]
    · simp only [wordsAux, h, Bool.false_eq_true, if_neg, if_false]
      exact ih (c :: w) (by simp)

theorem wordsAux_ne_nil_head (l : List Char) (c : Char) (hc : l.head? = some c)
    (hcw : c.isWhitespace = false) : wordsAux [] l ≠ [] := by
  cases l with
  | nil => simp at hc
  | cons d r =>
    simp at hc
    subst hc
    simp only [wordsAux, hcw, Bool.false_eq_true, if_neg, if_false, List.isEmpty_nil, if_true]
    exact wordsAux_ne_nil_of_acc r [d] (by simp)

theorem wordSet_ne_empty_of_words {s : String} (h : wordsAux [] s.toList ≠ []) :
    wordSet s ≠ ∅ := by
  simp only [wordSet, pySplitWS]
  intro h2
  rw [List.toFinset_eq_empty_iff, List.map_eq_nil_iff] at h2
  exact h h2

theorem wordSet_mk_strip_collapse (X : List Char)
    (h : String.mk (pyStripChars (collapseWS X)) ≠ "") :
    wordSet (String.mk (pyStripChars (collapseWS X))) ≠ ∅ := by
  have hR : pyStripChars (collapseWS X) ≠ [] := by
    intro h0
    rw [h0] at h
    exact h rfl
  obtain ⟨c, hc⟩ : ∃ c, (pyStripChars (collapseWS X)).head? = some c := by
    cases hl : pyStripChars (collapseWS X) with
    | nil => exact absurd hl hR
    | cons a r => exact ⟨a, by simp [hl]⟩
  have hcw := pyStripChars_head_not_ws (collapseWS X) c hc
  refine wordSet_ne_empty_of_words ?_
  have hq : (String.mk (pyStripChars (collapseWS X))).toList = pyStripChars (collapseWS X) := rfl
  rw [hq]
  exact wordsAux_ne_nil_head _ c hc hcw

theorem normalize_wordSet_ne_empty (v : PyVal) (h : normalize_location v ≠ "") :
    wordSet (normalize_location v) ≠ ∅ := by
  cases v with
  | str s =>
    by_cases hs : s = ""
    · simp [normalize_location, hs] at h
    · simp only [normalize_location, hs, if_neg, if_false] at h ⊢
      simp only [normalizeStr] at h ⊢
      exact wordSet_mk_strip_collapse _ h
  | none => simp [normalize_location] at h
  | bool b => simp [normalize_location] at h
  | int n => simp [normalize_location] at h
  | list xs => simp [normalize_location] at h
  | dict kvs => simp [normalize_location] at h

/-! Bounds and characterisation of the location similarity. -/

theorem jaccard_val_bounds (A B : Finset String) (hcommon : (A ∩ B) \ stopSet ≠ ∅)
    (hun : A ∪ B ≠ ∅) :
    0 < (((A ∩ B) \ stopSet).card : ℚ) / ((A ∪ B).card : ℚ) * (1 / 2) ∧
      (((A ∩ B) \ stopSet).card : ℚ) / ((A ∪ B).card : ℚ) * (1 / 2) ≤ 1 / 2 := by
  have hsub : (A ∩ B) \ stopSet ⊆ A ∪ B := by
    intro x hx
    have hx2 : x ∈ A ∩ B := (Finset.mem_sdiff.mp hx).1
    exact Finset.mem_union_left _ (Finset.mem_inter.mp hx2).1
  have hc : 0 < ((A ∩ B) \ stopSet).card :=
    Finset.card_pos.mpr (Finset.nonempty_iff_ne_empty.mpr hcommon)
  have hu : 0 < (A ∪ B).card :=
    Finset.card_pos.mpr (Finset.nonempty_iff_ne_empty.mpr hun)
  have hle : ((A ∩ B) \ stopSet).card ≤ (A ∪ B).card := Finset.card_le_card hsub
  constructor
  · apply mul_pos
    · apply div_pos
      · exact_mod_cast hc
      · exact_mod_cast hu
    · norm_num
  · have h1 : (((A ∩ B) \ stopSet).card : ℚ) / ((A ∪ B).card : ℚ) ≤ 1 := by
      rw [div_le_one (by exact_mod_cast hu)]
      exact_mod_cast hle
    calc (((A ∩ B) \ stopSet).card : ℚ) / ((A ∪ B).card : ℚ) * (1 / 2)
        ≤ 1 * (1 / 2) := by
          apply mul_le_mul_of_nonneg_right h1
          norm_num
      _ = 1 / 2 := by norm_num

theorem locPairScore_bounds (a b : PyVal) :
    0 ≤ locPairScore a b ∧ locPairScore a b ≤ 1 := by
  unfold locPairScore
  dsimp only
  split_ifs with h1 h2 h3 h4 h5
  · norm_num
  · norm_num
  · have := jaccard_val_bounds _ _ h4 h5
    constructor
    · exact le_of_lt this.1
    · linarith [this.2]
  · norm_num
  · norm_num
  · norm_num

/-! Fragment lemmas for the text extractor. -/

theorem listJoinParts_falsy {v : PyVal} (h : pyTruthy v = false) :
    listJoinParts v = [] := by
  cases v <;> simp [listJoinParts, h]

theorem projParts_falsy {v : PyVal} (h : pyTruthy v = false) :
    projParts v = [] := by
  cases v <;> simp [projParts, h]

theorem strParts_falsy {v : PyVal} (h : pyTruthy v = false) :
    strParts v = [] := by
  simp [strParts, h]

theorem resumeParts_falsy (dec : String → Option PyVal) {v : PyVal}
    (h : pyTruthy v = false) : resumeParts dec v = [] := by
  simp [resumeParts, h]

theorem listJoinParts_not_list {v : PyVal} (h : ∀ xs, v ≠ PyVal.list xs) :
    listJoinParts v = [] := by
  cases v with
  | list xs => exact absurd rfl (h xs)
  | none => rfl
  | bool b => rfl
  | int n => rfl
  | str s => rfl
  | dict kvs => rfl

theorem projParts_not_list {v : PyVal} (h : ∀ xs, v ≠ PyVal.list xs) :
    projParts v = [] := by
  cases v with
  | list xs => exact absurd rfl (h xs)
  | none => rfl
  | bool b => rfl
  | int n => rfl
  | str s => rfl
  | dict kvs => rfl

theorem resumeParts_not_dict (dec : String → Option PyVal) {v : PyVal}
    (hd : ∀ kvs, v ≠ PyVal.dict kvs) (hs : ∀ s, v ≠ PyVal.str s) :
    resumeParts dec v = [] := by
  cases v with
  | dict kvs => exact absurd rfl (hd kvs)
  | str s => exact absurd rfl (hs s)
  | none => rfl
  | bool b => simp [resumeParts]
  | int n => simp [resumeParts]
  | list xs => simp [resumeParts]

theorem compute_similarity_scores_range (profSim : Nat → Nat → FVal)
    (mentorLocs menteeLocs : List PyVal) (pw lw : ℚ)
    (hpw : 0 ≤ pw) (hlw : 0 ≤ lw) (hpos : 0 < pw + lw)
    (hfin : ∀ i j q, profSim i j = FVal.val q → 0 ≤ q ∧ q ≤ 1) (i j : Nat) :
    0 ≤ compute_similarity_scores profSim mentorLocs menteeLocs pw lw i j ∧
      compute_similarity_scores profSim mentorLocs menteeLocs pw lw i j ≤ 1 := by
  have hscrub : 0 ≤ nanToNum (profSim i j) ∧ nanToNum (profSim i j) ≤ 1 := by
    rcases hx : profSim i j with _ | _ | _ | q
    · simp [nanToNum]
    · simp [nanToNum]
    · simp [nanToNum]
    · simpa [nanToNum] using hfin i j q hx
  unfold compute_similarity_scores
  dsimp only
  split_ifs with h1 h2
  · have hloc := locPairScore_bounds (menteeLocs.getD i (.str "")) (mentorLocs.getD j (.str ""))
    have hw1 : 0 ≤ pw / (pw + lw) := div_nonneg hpw (le_of_lt hpos)
    have hw2 : 0 ≤ lw / (pw + lw) := div_nonneg hlw (le_of_lt hpos)
    have hsum : pw / (pw + lw) + lw / (pw + lw) = 1 := by
      rw [div_add_div_same, div_self (ne_of_gt hpos)]
    simp only [compute_location_similarity]
    constructor
    · exact add_nonneg (mul_nonneg hw1 hscrub.1) (mul_nonneg hw2 hloc.1)
    · calc pw / (pw + lw) * nanToNum (profSim i j) +
            lw / (pw + lw) * locPairScore (menteeLocs.getD i (.str "")) (mentorLocs.getD j (.str ""))
          ≤ pw / (pw + lw) * 1 + lw / (pw + lw) * 1 :=
            add_le_add (mul_le_mul_of_nonneg_left hscrub.2 hw1)
              (mul_le_mul_of_nonneg_left hloc.2 hw2)
        _ = 1 := by rw [mul_one, mul_one, hsum]
  all_goals exact hscrub

theorem bestFor_length_le_one (mentees : List Profile) (sim : Nat → Nat → ℚ) (j : Nat) :
    (bestFor mentees sim j).length ≤ 1 := by
  unfold bestFor
  rcases bestMentee (fun i => sim i j) mentees.length with ⟨bi, bs⟩
  cases bi with
  | none => simp
  | some i => by_cases h : 0 < bs <;> simp [h]

/-! Claim theorems. -/

/-- C8: when the eligibility filters leave zero mentors or zero mentees, the
pipeline returns a non-exceptional result with `success = false`, one of the
two descriptive failure messages, no statistics and an empty `matches`
mapping, instead of building a similarity matrix or raising. -/
theorem C8_no_eligible_is_nonexceptional
    (profSim : List Profile → List Profile → Nat → Nat → FVal)
    (mentorsData menteesData : List Profile)
    (h : eligMentors mentorsData = [] ∨ eligMentees menteesData = []) :
    (perform_matching profSim mentorsData menteesData).success = false ∧
    (perform_matching profSim mentorsData menteesData).matchesMap = [] ∧
    (perform_matching profSim mentorsData menteesData).statistics = Option.none ∧
    ((perform_matching profSim mentorsData menteesData).message
        = "No mentors available for matching (willing_to_be_mentor=true AND capacity>0)" ∨
      (perform_matching profSim mentorsData menteesData).message
        = "No mentees available for matching (mentorship_interest=true AND mentor_paired=false)") := by
  unfold perform_matching
  dsimp only
  rcases h with h | h
  · simp [h]
  · by_cases h2 : eligMentors mentorsData = []
    · simp [h2]
    · simp [h, h2]

/-- Witness for C8 at the empty input. -/
theorem C8_witness :
    (perform_matching simOne [] []).success = false ∧
    (perform_matching simOne [] []).matchesMap = [] ∧
    (perform_matching simOne [] []).statistics = Option.none ∧
    ((perform_matching simOne [] []).message
        = "No mentors available for matching (willing_to_be_mentor=true AND capacity>0)" ∨
      (perform_matching simOne [] []).message
        = "No mentees available for matching (mentorship_interest=true AND mentor_paired=false)") :=
  C8_no_eligible_is_nonexceptional simOne [] [] (Or.inl rfl)

/-- C3: every key of the `matches` mapping is the stringified id of some
eligible mentor of the input; consequently a mentor that is unwilling or has
no positive capacity never contributes a key, and a key matched by no
eligible mentor is absent. -/
theorem C3_ineligible_mentor_never_a_key
    (profSim : List Profile → List Profile → Nat → Nat → FVal)
    (mentorsData menteesData : List Profile) :
    (∀ kv ∈ (perform_matching profSim mentorsData menteesData).matchesMap,
      ∃ m ∈ mentorsData, mentorEligible m = true ∧ kv.1 = pyStr (pyId m)) ∧
    (∀ k : String,
      (∀ m ∈ mentorsData, pyStr (pyId m) = k → mentorEligible m = false) →
      strLookup k (perform_matching profSim mentorsData menteesData).matchesMap
        = Option.none) := by
  have hmain : ∀ kv ∈ (perform_matching profSim mentorsData menteesData).matchesMap,
      ∃ m ∈ mentorsData, mentorEligible m = true ∧ kv.1 = pyStr (pyId m) := by
    intro kv hkv
    unfold perform_matching at hkv
    dsimp only at hkv
    by_cases h1 : (eligMentors mentorsData).isEmpty
    · simp [h1] at hkv
    · by_cases h2 : (eligMentees menteesData).isEmpty
      · simp [h1, h2] at hkv
      · simp only [h1, h2, Bool.false_eq_true, if_neg, if_false] at hkv
        obtain ⟨m, hm, hk, _⟩ := matcher_provenance _ _ _ kv hkv
        have hf := List.mem_filter.mp hm
        exact ⟨m, hf.1, hf.2, hk⟩
  refine ⟨hmain, ?_⟩
  intro k hk
  apply strLookup_eq_none
  intro kv hkv
  obtain ⟨m, hm, helig, hkey⟩ := hmain kv hkv
  intro hcon
  rw [hcon] at hkey
  exact absurd helig (by simp [hk m hm hkey.symm])

/-- Witness for C3: a mentor with absent `willing_to_be_mentor` and positive
capacity yields no key `"1"`. -/
theorem C3_witness :
    strLookup "1" (perform_matching simOne [mentorNoWill] [menteeB]).matchesMap
      = Option.none :=
  (C3_ineligible_mentor_never_a_key simOne [mentorNoWill] [menteeB]).2 "1"
    (by
      intro m hm _
      simp only [List.mem_singleton] at hm
      subst hm
      rfl)

/-- C4: every assignment value in every mentor record is built from a mentee
of the input that passes the tri-state eligibility filter; a mentee whose
`mentor_paired` is tri-state truthy, or whose `mentorship_interest` is not,
never appears as an assigned mentee. -/
theorem C4_paired_or_uninterested_never_assigned
    (profSim : List Profile → List Profile → Nat → Nat → FVal)
    (mentorsData menteesData : List Profile) :
    ∀ kv ∈ (perform_matching profSim mentorsData menteesData).matchesMap,
      ∀ a ∈ kv.2.mentees,
        ∃ p ∈ menteesData, menteeEligible p = true ∧
          a = mkAssignment p a.similarity_score := by
  intro kv hkv a ha
  unfold perform_matching at hkv
  dsimp only at hkv
  by_cases h1 : (eligMentors mentorsData).isEmpty
  · simp [h1] at hkv
  · by_cases h2 : (eligMentees menteesData).isEmpty
    · simp [h1, h2] at hkv
    · simp only [h1, h2, Bool.false_eq_true, if_neg, if_false] at hkv
      obtain ⟨m, hm, _, hass⟩ := matcher_provenance _ _ _ kv hkv
      obtain ⟨p, hp, heq⟩ := hass a ha
      have hf := List.mem_filter.mp hp
      exact ⟨p, hf.1, hf.2, heq⟩

/-- The one-mentor one-mentee scenario evaluates to a single match. -/
theorem basicScenario_matches :
    (perform_matching simOne [mentorA] [menteeB]).matchesMap
      = [("1", mkRecord mentorA [mkAssignment menteeB (7 / 10)])] := rfl

/-- Witness for C4 at the one-mentor one-mentee scenario. -/
theorem C4_witness :
    ∃ p ∈ [menteeB], menteeEligible p = true ∧
      mkAssignment menteeB (7 / 10)
        = mkAssignment p (mkAssignment menteeB (7 / 10)).similarity_score :=
  C4_paired_or_uninterested_never_assigned simOne [mentorA] [menteeB]
    ("1", mkRecord mentorA [mkAssignment menteeB (7 / 10)])
    (by rw [basicScenario_matches]; exact List.mem_singleton.mpr rfl)
    (mkAssignment menteeB (7 / 10))
    (by simp [mkRecord])

/-- C5 counterexample: two eligible mentors sharing id 1 make the single
emitted record hold two assigned mentees, so the claim's bound of at most one
fails on this input. -/
theorem C5_counterexample :
    ∃ r, strLookup "1" (perform_matching simOne [mentorA, mentorA] [menteeB]).matchesMap
        = some r ∧ r.assigned_count = 2 ∧ r.mentees.length = 2 ∧ ¬(2 ≤ 1) :=
  ⟨_, rfl, rfl, rfl, by norm_num⟩

/-- C5 amended: provided the eligible mentors carry pairwise `==`-distinct
ids, every record of the `matches` mapping holds at most one assigned mentee,
regardless of the magnitude of `mentor_capacity`. -/
theorem C5_at_most_one_assignment
    (profSim : List Profile → List Profile → Nat → Nat → FVal)
    (mentorsData menteesData : List Profile)
    (hdist : (eligMentors mentorsData).Pairwise
      (fun a b => pyEq (pyId a) (pyId b) = false)) :
    ∀ kv ∈ (perform_matching profSim mentorsData menteesData).matchesMap,
      kv.2.assigned_count ≤ 1 ∧ kv.2.mentees.length ≤ 1 := by
  intro kv hkv
  unfold perform_matching at hkv
  dsimp only at hkv
  by_cases h1 : (eligMentors mentorsData).isEmpty
  · simp [h1] at hkv
  · by_cases h2 : (eligMentees menteesData).isEmpty
    · simp [h1, h2] at hkv
    · simp only [h1, h2, Bool.false_eq_true, if_neg, if_false] at hkv
      have hall : ∀ m ∈ eligMentors mentorsData, mentorEligible m = true :=
        fun m hm => (List.mem_filter.mp hm).2
      rw [matcher_char _ _ _ hall hdist] at hkv
      rcases buildResult_mem _ _ _ kv hkv with h | ⟨m, hm, l, hlk, hlen, hk1, hk2⟩
      · simp at h
      · obtain ⟨kv0, hkv0, hv⟩ := pyLookup_mem hlk
        simp only [asgnMap, List.mem_map] at hkv0
        obtain ⟨p, hp, hpe⟩ := hkv0
        have hlen1 : l.length ≤ 1 := by
          rw [← hv, ← hpe]
          exact bestFor_length_le_one _ _ _
        rw [hk2]
        exact ⟨by simpa [mkRecord] using hlen1, by simpa [mkRecord] using hlen1⟩

/-- Witness for C5 at the one-mentor one-mentee scenario. -/
theorem C5_witness :
    (mkRecord mentorA [mkAssignment menteeB (7 / 10)]).assigned_count ≤ 1 ∧
    (mkRecord mentorA [mkAssignment menteeB (7 / 10)]).mentees.length ≤ 1 :=
  C5_at_most_one_assignment simOne [mentorA] [menteeB]
    (by rw [show eligMentors [mentorA] = [mentorA] from rfl]; simp)
    ("1", mkRecord mentorA [mkAssignment menteeB (7 / 10)])
    (by rw [basicScenario_matches]; exact List.mem_singleton.mpr rfl)

/-- C10: mentor willingness is evaluated by general Python truthiness, not
the tri-state rule: any non-empty string (including `"false"`), any non-zero
integer and any non-empty list count as willing, and a mentor with
`willing_to_be_mentor = "false"` and positive capacity is eligible and
appears as a key in `matches`. -/
theorem C10_willing_general_truthiness :
    (∀ s : String, s ≠ "" → pyTruthy (.str s) = true) ∧
    (∀ n : Int, n ≠ 0 → pyTruthy (.int n) = true) ∧
    (∀ xs : List PyVal, xs ≠ [] → pyTruthy (.list xs) = true) ∧
    mentorEligible mentorWF = true ∧
    strLookup "1" (perform_matching simOne [mentorWF] [menteeB]).matchesMap
      = some (mkRecord mentorWF [mkAssignment menteeB (7 / 10)]) := by
  refine ⟨?_, ?_, ?_, rfl, rfl⟩
  · intro s hs; simp [pyTruthy, hs]
  · intro n hn; simp [pyTruthy, hn]
  · intro xs hxs; simp [pyTruthy, hxs]

/-- Witness for C10 at the string `"false"`, the integer 5 and a singleton
list. -/
theorem C10_witness :
    pyTruthy (.str "false") = true ∧ pyTruthy (.int 5) = true ∧
      pyTruthy (.list [.int 1]) = true :=
  ⟨C10_willing_general_truthiness.1 "false" (by decide),
   C10_willing_general_truthiness.2.1 5 (by decide),
   C10_willing_general_truthiness.2.2.1 [.int 1] (by simp)⟩

/-- C6 counterexample: the scrub maps negative infinity to 0.0, not 1.0 as
the claim states, and a negative-infinity cosine entry therefore surfaces as
0 in the combined matrix. -/
theorem C6_counterexample :
    nanToNum FVal.neginf = 0 ∧
    compute_similarity_scores (fun _ _ => FVal.neginf) [] [] (7 / 10) (3 / 10) 0 0 = 0 ∧
    (0 : ℚ) ≠ 1 :=
  ⟨rfl, rfl, by norm_num⟩

/-- C6 amended: the scrub replaces NaN by 0.0, positive infinity by 1.0 and
negative infinity by 0.0; for any non-negative weight pair with positive sum,
if every finite cosine entry lies in [0, 1] (as holds for cosine similarity
of non-negative vectors), then every entry of the combined matrix lies in
[0, 1], and no NaN or infinity appears in the output. -/
theorem C6_scrub_and_range (profSim : Nat → Nat → FVal)
    (mentorLocs menteeLocs : List PyVal) (pw lw : ℚ)
    (hpw : 0 ≤ pw) (hlw : 0 ≤ lw) (hpos : 0 < pw + lw)
    (hfin : ∀ i j q, profSim i j = FVal.val q → 0 ≤ q ∧ q ≤ 1) (i j : Nat) :
    nanToNum FVal.nan = 0 ∧ nanToNum FVal.posinf = 1 ∧ nanToNum FVal.neginf = 0 ∧
    0 ≤ compute_similarity_scores profSim mentorLocs menteeLocs pw lw i j ∧
    compute_similarity_scores profSim mentorLocs menteeLocs pw lw i j ≤ 1 := by
  have := compute_similarity_scores_range profSim mentorLocs menteeLocs pw lw
    hpw hlw hpos hfin i j
  exact ⟨rfl, rfl, rfl, this.1, this.2⟩

/-- Witness for C6 at a constant half-valued cosine matrix. -/
theorem C6_witness :
    nanToNum FVal.nan = 0 ∧ nanToNum FVal.posinf = 1 ∧ nanToNum FVal.neginf = 0 ∧
    0 ≤ compute_similarity_scores (fun _ _ => FVal.val (1 / 2)) [.str "a"] [.str "b"]
        (7 / 10) (3 / 10) 0 0 ∧
    compute_similarity_scores (fun _ _ => FVal.val (1 / 2)) [.str "a"] [.str "b"]
        (7 / 10) (3 / 10) 0 0 ≤ 1 :=
  C6_scrub_and_range (fun _ _ => FVal.val (1 / 2)) [.str "a"] [.str "b"]
    (7 / 10) (3 / 10) (by norm_num) (by norm_num) (by norm_num)
    (fun i j q h => by
      injection h with h2
      rw [← h2]
      norm_num) 0 0

/-- C7 counterexample: `"NY"` normalises to `"new york"` while
`"New York, NY"` normalises to `"new york new york"` (the whole-word
expansion of `ny` fires inside it), so the normalised forms are unequal and
the location similarity is not 1.0. -/
theorem C7_counterexample :
    normalize_location (.str "NY") = "new york" ∧
    normalize_location (.str "New York, NY") = "new york new york" ∧
    normalize_location (.str "NY") ≠ normalize_location (.str "New York, NY") ∧
    locPairScore (.str "NY") (.str "New York, NY") ≠ 1 :=
  ⟨rfl, rfl, by decide, by decide⟩

/-- C7 amended: the pair scores 0.5: the normalised forms differ, but the two
word sets are both `{new, york}`, so the partial-match branch applies with
Jaccard similarity 1 scaled by 0.5. -/
theorem C7_ny_newyork_half :
    locPairScore (.str "NY") (.str "New York, NY") = 1 / 2 := by decide

/-- Equation for `locPairScore` with its let bindings expanded. -/
theorem locPairScore_eq (a b : PyVal) :
    locPairScore a b =
      (if normalize_location a = "" ∧ normalize_location b = "" then 0
       else if normalize_location a = normalize_location b ∧ normalize_location a ≠ "" then 1
       else if wordSet (normalize_location a) ≠ ∅ ∧ wordSet (normalize_location b) ≠ ∅ then
         if (wordSet (normalize_location a) ∩ wordSet (normalize_location b)) \ stopSet ≠ ∅ then
           if wordSet (normalize_location a) ∪ wordSet (normalize_location b) ≠ ∅ then
             ((((wordSet (normalize_location a) ∩ wordSet (normalize_location b))
                 \ stopSet).card : ℚ)
               / ((wordSet (normalize_location a) ∪ wordSet (normalize_location b)).card : ℚ))
               * (1 / 2)
           else 0
         else 0
       else 0) := rfl

/-- C2 amended: location similarity is exactly 1.0 iff the normalised forms
are equal and non-empty; otherwise it is 0.0 when either normalised form is
empty or no common word survives stop-word removal; otherwise it equals the
cardinality of the stop-word-stripped intersection divided by the cardinality
of the full union of the two word sets, scaled by 0.5, a value in
(0, 0.5]. -/
theorem C2_location_similarity_characterization (la lb : String) :
    (locPairScore (.str la) (.str lb) = 1 ↔
      (normalize_location (.str la) = normalize_location (.str lb) ∧
        normalize_location (.str la) ≠ "")) ∧
    (¬(normalize_location (.str la) = normalize_location (.str lb) ∧
        normalize_location (.str la) ≠ "") →
      (normalize_location (.str la) = "" ∨ normalize_location (.str lb) = "" ∨
        (wordSet (normalize_location (.str la)) ∩ wordSet (normalize_location (.str lb)))
          \ stopSet = ∅) →
      locPairScore (.str la) (.str lb) = 0) ∧
    (¬(normalize_location (.str la) = normalize_location (.str lb) ∧
        normalize_location (.str la) ≠ "") →
      normalize_location (.str la) ≠ "" → normalize_location (.str lb) ≠ "" →
      (wordSet (normalize_location (.str la)) ∩ wordSet (normalize_location (.str lb)))
        \ stopSet ≠ ∅ →
      locPairScore (.str la) (.str lb)
        = (((wordSet (normalize_location (.str la)) ∩ wordSet (normalize_location (.str lb)))
              \ stopSet).card : ℚ)
          / ((wordSet (normalize_location (.str la))
              ∪ wordSet (normalize_location (.str lb))).card : ℚ) * (1 / 2) ∧
      0 < locPairScore (.str la) (.str lb) ∧
      locPairScore (.str la) (.str lb) ≤ 1 / 2) := by
  refine ⟨⟨?_, ?_⟩, ?_, ?_⟩
  · intro h1
    rw [locPairScore_eq] at h1
    by_cases c1 : normalize_location (.str la) = "" ∧ normalize_location (.str lb) = ""
    · rw [if_pos c1] at h1
      exact absurd h1 (by norm_num)
    · rw [if_neg c1] at h1
      by_cases c2 : normalize_location (.str la) = normalize_location (.str lb) ∧
          normalize_location (.str la) ≠ ""
      · exact c2
      · rw [if_neg c2] at h1
        by_cases c3 : wordSet (normalize_location (.str la)) ≠ ∅ ∧
            wordSet (normalize_location (.str lb)) ≠ ∅
        · rw [if_pos c3] at h1
          by_cases c4 : (wordSet (normalize_location (.str la)) ∩
              wordSet (normalize_location (.str lb))) \ stopSet ≠ ∅
          · rw [if_pos c4] at h1
            by_cases c5 : wordSet (normalize_location (.str la)) ∪
                wordSet (normalize_location (.str lb)) ≠ ∅
            · rw [if_pos c5] at h1
              have hb := jaccard_val_bounds _ _ c4 c5
              rw [h1] at hb
              linarith [hb.2]
            · rw [if_neg c5] at h1
              exact absurd h1 (by norm_num)
          · rw [if_neg c4] at h1
            exact absurd h1 (by norm_num)
        · rw [if_neg c3] at h1
          exact absurd h1 (by norm_num)
  · rintro ⟨heq, hne⟩
    rw [locPairScore_eq]
    rw [if_neg (fun hc => hne hc.1), if_pos ⟨heq, hne⟩]
  · intro hnot hzero
    rw [locPairScore_eq]
    by_cases c1 : normalize_location (.str la) = "" ∧ normalize_location (.str lb) = ""
    · rw [if_pos c1]
    · rw [if_neg c1, if_neg hnot]
      by_cases c3 : wordSet (normalize_location (.str la)) ≠ ∅ ∧
          wordSet (normalize_location (.str lb)) ≠ ∅
      · rw [if_pos c3]
        have hcore : (wordSet (normalize_location (.str la)) ∩
            wordSet (normalize_location (.str lb))) \ stopSet = ∅ := by
          rcases hzero with h | h | h
          · exact absurd (show wordSet (normalize_location (.str la)) = ∅ by rw [h]; rfl) c3.1
          · exact absurd (show wordSet (normalize_location (.str lb)) = ∅ by rw [h]; rfl) c3.2
          · exact h
        rw [if_neg (by simpa using hcore)]
      · rw [if_neg c3]
  · intro hnot hA0 hB0 hcore
    have gA : wordSet (normalize_location (.str la)) ≠ ∅ :=
      normalize_wordSet_ne_empty _ hA0
    have gB : wordSet (normalize_location (.str lb)) ≠ ∅ :=
      normalize_wordSet_ne_empty _ hB0
    have gun : wordSet (normalize_location (.str la)) ∪ wordSet (normalize_location (.str lb))
        ≠ ∅ := by
      intro h
      exact gA (Finset.union_eq_empty.mp h).1
    rw [locPairScore_eq, if_neg (fun hc => hA0 hc.1), if_neg hnot, if_pos ⟨gA, gB⟩,
      if_pos hcore, if_pos gun]
    have hb := jaccard_val_bounds _ _ hcore gun
    exact ⟨rfl, hb.1, hb.2⟩

/-- C2 counterexample: for the pair `"port of spain"` / `"port of x"`, which
is in the partial-match branch, the code scores
|{port}| / |{port, of, spain, x}| × 0.5 = 0.125, while the claim's formula —
Jaccard over the original pre-stop-word-removal word sets — demands
|{port, of}| / |{port, of, spain, x}| × 0.5 = 0.25: the numerator uses the
stop-word-stripped intersection, not the original one. -/
theorem C2_counterexample :
    normalize_location (.str "port of spain") ≠ normalize_location (.str "port of x") ∧
    normalize_location (.str "port of spain") ≠ "" ∧
    normalize_location (.str "port of x") ≠ "" ∧
    (wordSet (normalize_location (.str "port of spain")) ∩
      wordSet (normalize_location (.str "port of x"))) \ stopSet ≠ ∅ ∧
    locPairScore (.str "port of spain") (.str "port of x") = 1 / 8 ∧
    ((wordSet (normalize_location (.str "port of spain")) ∩
        wordSet (normalize_location (.str "port of x"))).card : ℚ)
      / ((wordSet (normalize_location (.str "port of spain")) ∪
          wordSet (normalize_location (.str "port of x"))).card : ℚ) * (1 / 2) = 1 / 4 ∧
    (1 / 8 : ℚ) ≠ 1 / 4 :=
  ⟨by decide, by decide, by decide, by decide, by decide, by decide, by norm_num⟩

/-- Witness for C2's partial-match branch at `"port of spain"` /
`"port of x"`. -/
theorem C2_witness :
    locPairScore (.str "port of spain") (.str "port of x")
      = (((wordSet (normalize_location (.str "port of spain")) ∩
            wordSet (normalize_location (.str "port of x"))) \ stopSet).card : ℚ)
        / ((wordSet (normalize_location (.str "port of spain")) ∪
            wordSet (normalize_location (.str "port of x"))).card : ℚ) * (1 / 2) ∧
    0 < locPairScore (.str "port of spain") (.str "port of x") ∧
    locPairScore (.str "port of spain") (.str "port of x") ≤ 1 / 2 :=
  (C2_location_similarity_characterization "port of spain" "port of x").2.2
    (by decide) (by decide) (by decide) (by decide)


/-- C1 (amended): for every eligible mentor — position `j` in the filtered
mentor list, assuming the eligible mentors carry pairwise distinct ids both
as dictionary keys (`==`) and as result-key strings — the matcher scans every
eligible mentee in order and selects the strictly highest combined score,
first-seen winning ties; if that best score is positive, the mentor's key
maps to a record holding exactly one assignment for the selected mentee
(identity `student_id or id`, i.e. `student_id` when present and truthy,
else `id`; name defaulting to "Unknown"; email defaulting to ""), whose
similarity_score is the best score; if the best score is 0 the mentor's key
is absent from the result. -/
theorem C1_best_match_per_mentor
    (profSim : List Profile → List Profile → Nat → Nat → FVal)
    (mentorsData menteesData : List Profile)
    (hdist : (eligMentors mentorsData).Pairwise (fun a b => pyEq (pyId a) (pyId b) = false))
    (hdistS : (eligMentors mentorsData).Pairwise (fun a b => pyStr (pyId a) ≠ pyStr (pyId b)))
    (j : Nat) (hj : j < (eligMentors mentorsData).length)
    (hE : (eligMentees menteesData) ≠ []) :
    (0 < (bestMentee (fun i => pipelineSim profSim (eligMentors mentorsData) (eligMentees menteesData) i j) (eligMentees menteesData).length).2 →
      ∃ i, i < (eligMentees menteesData).length ∧
        bestMentee (fun i2 => pipelineSim profSim (eligMentors mentorsData) (eligMentees menteesData) i2 j) (eligMentees menteesData).length = (some i, pipelineSim profSim (eligMentors mentorsData) (eligMentees menteesData) i j) ∧
        (∀ k, k < (eligMentees menteesData).length → pipelineSim profSim (eligMentors mentorsData) (eligMentees menteesData) k j ≤ pipelineSim profSim (eligMentors mentorsData) (eligMentees menteesData) i j) ∧
        (∀ k, k < i → pipelineSim profSim (eligMentors mentorsData) (eligMentees menteesData) k j < pipelineSim profSim (eligMentors mentorsData) (eligMentees menteesData) i j) ∧
        strLookup (pyStr (pyId ((eligMentors mentorsData).get ⟨j, hj⟩)))
            (perform_matching profSim mentorsData menteesData).matchesMap
          = some (mkRecord ((eligMentors mentorsData).get ⟨j, hj⟩)
              [mkAssignment ((eligMentees menteesData).getD i default) (pipelineSim profSim (eligMentors mentorsData) (eligMentees menteesData) i j)])) ∧
    ((bestMentee (fun i => pipelineSim profSim (eligMentors mentorsData) (eligMentees menteesData) i j) (eligMentees menteesData).length).2 = 0 →
      strLookup (pyStr (pyId ((eligMentors mentorsData).get ⟨j, hj⟩)))
          (perform_matching profSim mentorsData menteesData).matchesMap
        = Option.none) := by
  have hne1 : (eligMentors mentorsData).isEmpty = false := by
    cases h : eligMentors mentorsData with
    | nil => rw [h] at hj; simp at hj
    | cons a l => rfl
  have hne2 : (eligMentees menteesData).isEmpty = false := by
    cases h : eligMentees menteesData with
    | nil => exact absurd h hE
    | cons a l => rfl
  have hmm2 : (perform_matching profSim mentorsData menteesData).matchesMap
      = match_mentees_to_mentors (eligMentors mentorsData) (eligMentees menteesData) (pipelineSim profSim (eligMentors mentorsData) (eligMentees menteesData)) := by
    unfold perform_matching
    dsimp only
    simp [hne1, hne2]
  have hall : ∀ m ∈ eligMentors mentorsData, mentorEligible m = true :=
    fun m hm => (List.mem_filter.mp hm).2
  have hlook := matcher_lookup (eligMentors mentorsData) (eligMentees menteesData) (pipelineSim profSim (eligMentors mentorsData) (eligMentees menteesData)) hall hdist hdistS j hj
  rcases bestMentee_spec (fun i => pipelineSim profSim (eligMentors mentorsData) (eligMentees menteesData) i j) (eligMentees menteesData).length with
    ⟨heq, hallneg⟩ | ⟨i, hi, heq, hgt, hmax, hfirst⟩
  · constructor
    · intro hpos
      rw [heq] at hpos
      norm_num at hpos
    · intro h0
      rw [heq] at h0
      norm_num at h0
  · constructor
    · intro hpos
      rw [heq] at hpos
      simp only at hpos
      refine ⟨i, hi, heq, hmax, hfirst, ?_⟩
      rw [hmm2, hlook]
      have hbf : bestFor (eligMentees menteesData) (pipelineSim profSim (eligMentors mentorsData) (eligMentees menteesData)) j
          = [mkAssignment ((eligMentees menteesData).getD i default) (pipelineSim profSim (eligMentors mentorsData) (eligMentees menteesData) i j)] := by
        unfold bestFor
        rw [heq]
        simp [hpos]
      rw [hbf]
      simp
    · intro h0
      rw [heq] at h0
      simp only at h0
      rw [hmm2, hlook]
      have hbf : bestFor (eligMentees menteesData) (pipelineSim profSim (eligMentors mentorsData) (eligMentees menteesData)) j = [] := by
        unfold bestFor
        rw [heq]
        simp [h0]
      rw [hbf]
      simp


/-- Witness for C1 at the one-mentor one-mentee scenario (best score
0.7 > 0). -/
theorem C1_witness :
    ∃ i, i < (eligMentees [menteeB]).length ∧
      bestMentee (fun i2 => pipelineSim simOne (eligMentors [mentorA]) (eligMentees [menteeB]) i2 0) (eligMentees [menteeB]).length = (some i, pipelineSim simOne (eligMentors [mentorA]) (eligMentees [menteeB]) i 0) ∧
      (∀ k, k < (eligMentees [menteeB]).length → pipelineSim simOne (eligMentors [mentorA]) (eligMentees [menteeB]) k 0 ≤ pipelineSim simOne (eligMentors [mentorA]) (eligMentees [menteeB]) i 0) ∧
      (∀ k, k < i → pipelineSim simOne (eligMentors [mentorA]) (eligMentees [menteeB]) k 0 < pipelineSim simOne (eligMentors [mentorA]) (eligMentees [menteeB]) i 0) ∧
      strLookup (pyStr (pyId ((eligMentors [mentorA]).get ⟨0, by decide⟩)))
          (perform_matching simOne [mentorA] [menteeB]).matchesMap
        = some (mkRecord ((eligMentors [mentorA]).get ⟨0, by decide⟩)
            [mkAssignment ((eligMentees [menteeB]).getD i default) (pipelineSim simOne (eligMentors [mentorA]) (eligMentees [menteeB]) i 0)]) :=
  (C1_best_match_per_mentor simOne [mentorA] [menteeB]
    (by rw [show eligMentors [mentorA] = [mentorA] from rfl]; simp)
    (by rw [show eligMentors [mentorA] = [mentorA] from rfl]; simp)
    0 (by decide)
    (by rw [show eligMentees [menteeB] = [menteeB] from rfl]; exact List.cons_ne_nil _ _)).1
    (by rw [show (bestMentee (fun i => pipelineSim simOne (eligMentors [mentorA]) (eligMentees [menteeB]) i 0) (eligMentees [menteeB]).length).2 = 7 / 10 from rfl]
        norm_num)

/-- C1 counterexample: a mentee with a present but falsy `student_id` (0)
next to `id` 5 is recorded under identity 5 — the code takes
`student_id or id`, not "`student_id` if present". -/
theorem C1_counterexample :
    menteeSid0.student_id = some (PyVal.int 0) ∧
    (∃ r, strLookup "1" (perform_matching simOne [mentorA] [menteeSid0]).matchesMap
        = some r ∧ r.mentees.map (fun a => a.mentee_id) = [PyVal.int 5]) ∧
    PyVal.int 5 ≠ PyVal.int 0 :=
  ⟨rfl, ⟨_, rfl, rfl⟩, by simp⟩


/-- C9: the profile text extractor is total and always returns a single
space-normalised string; the empty profile extracts to the empty string;
fields that are absent (`Option.none`), falsy (empty or null), or of a
non-matching type (non-list for the list fields, non-object after decoding
for `parsed_resume`) are silently skipped and contribute nothing. -/
theorem C9_extractor_total_normalized :
    (∀ (dec : String → Option PyVal) (p : Profile) (st : Bool),
      spaceNormalized (extract_text_from_profile dec p st).toList = true) ∧
    (∀ (dec : String → Option PyVal) (st : Bool),
      extract_text_from_profile dec {} st = "") ∧
    (∀ (dec : String → Option PyVal) (p : Profile) (st : Bool) (v : PyVal),
      pyTruthy v = false →
      (extract_text_from_profile dec { p with mentor_preference := some v } st
        = extract_text_from_profile dec { p with mentor_preference := Option.none } st) ∧
      (extract_text_from_profile dec { p with skills := some v } st
        = extract_text_from_profile dec { p with skills := Option.none } st) ∧
      (extract_text_from_profile dec { p with projects := some v } st
        = extract_text_from_profile dec { p with projects := Option.none } st) ∧
      (extract_text_from_profile dec { p with aspirations := some v } st
        = extract_text_from_profile dec { p with aspirations := Option.none } st) ∧
      (extract_text_from_profile dec { p with parsed_resume := some v } st
        = extract_text_from_profile dec { p with parsed_resume := Option.none } st) ∧
      (extract_text_from_profile dec { p with experiences := some v } st
        = extract_text_from_profile dec { p with experiences := Option.none } st) ∧
      (extract_text_from_profile dec { p with achievements := some v } st
        = extract_text_from_profile dec { p with achievements := Option.none } st) ∧
      (extract_text_from_profile dec { p with major := some v } st
        = extract_text_from_profile dec { p with major := Option.none } st) ∧
      (extract_text_from_profile dec { p with relevant_coursework := some v } st
        = extract_text_from_profile dec { p with relevant_coursework := Option.none } st)) ∧
    (∀ (dec : String → Option PyVal) (p : Profile) (st : Bool) (v : PyVal),
      (∀ xs, v ≠ PyVal.list xs) →
      (extract_text_from_profile dec { p with skills := some v } st
        = extract_text_from_profile dec { p with skills := Option.none } st) ∧
      (extract_text_from_profile dec { p with projects := some v } st
        = extract_text_from_profile dec { p with projects := Option.none } st) ∧
      (extract_text_from_profile dec { p with experiences := some v } st
        = extract_text_from_profile dec { p with experiences := Option.none } st) ∧
      (extract_text_from_profile dec { p with achievements := some v } st
        = extract_text_from_profile dec { p with achievements := Option.none } st) ∧
      (extract_text_from_profile dec { p with relevant_coursework := some v } st
        = extract_text_from_profile dec { p with relevant_coursework := Option.none } st)) ∧
    (∀ (dec : String → Option PyVal) (p : Profile) (st : Bool) (v : PyVal),
      (∀ kvs, v ≠ PyVal.dict kvs) → (∀ s2, v ≠ PyVal.str s2) →
      (extract_text_from_profile dec { p with parsed_resume := some v } st
        = extract_text_from_profile dec { p with parsed_resume := Option.none } st)) := by
  refine ⟨?_, ?_, ?_, ?_, ?_⟩
  · intro dec p st
    exact spaceNormalized_strip_collapse _
  · intro dec st
    cases st <;> rfl
  · intro dec p st v hv
    have h0 : pyTruthy PyVal.none = false := rfl
    refine ⟨?_, ?_, ?_, ?_, ?_, ?_, ?_, ?_, ?_⟩ <;>
      simp [extract_text_from_profile, prefParts, strParts, resumeParts, pyGet, hv, h0,
        listJoinParts_falsy hv, @listJoinParts_falsy PyVal.none h0,
        projParts_falsy hv, @projParts_falsy PyVal.none h0]
  · intro dec p st v hv
    have h0 : pyTruthy PyVal.none = false := rfl
    refine ⟨?_, ?_, ?_, ?_, ?_⟩ <;>
      simp [extract_text_from_profile, prefParts, pyGet,
        listJoinParts_not_list hv, @listJoinParts_falsy PyVal.none h0,
        projParts_not_list hv, @projParts_falsy PyVal.none h0]
  · intro dec p st v hd hs
    have h0 : pyTruthy PyVal.none = false := rfl
    simp [extract_text_from_profile, prefParts, pyGet,
      resumeParts_not_dict dec hd hs, resumeParts_falsy dec h0]

/-- Witness for C9: normalisation of a concrete extraction, the empty
profile, and the skip of a falsy and of a wrongly-typed `skills` value. -/
theorem C9_witness :
    spaceNormalized (extract_text_from_profile (fun _ => Option.none)
        { skills := some (.list [.str "python"]) } true).toList = true ∧
    extract_text_from_profile (fun _ => Option.none) {} true = "" ∧
    extract_text_from_profile (fun _ => Option.none)
        { ({} : Profile) with skills := some (PyVal.int 0) } true
      = extract_text_from_profile (fun _ => Option.none)
        { ({} : Profile) with skills := Option.none } true ∧
    extract_text_from_profile (fun _ => Option.none)
        { ({} : Profile) with skills := some (PyVal.str "oops") } true
      = extract_text_from_profile (fun _ => Option.none)
        { ({} : Profile) with skills := Option.none } true :=
  ⟨C9_extractor_total_normalized.1 (fun _ => Option.none) _ true,
   C9_extractor_total_normalized.2.1 (fun _ => Option.none) true,
   (C9_extractor_total_normalized.2.2.1 (fun _ => Option.none) {} true
     (PyVal.int 0) rfl).2.1,
   (C9_extractor_total_normalized.2.2.2.1 (fun _ => Option.none) {} true
     (PyVal.str "oops") (fun xs h => by cases h)).1⟩
